import Mathlib

/-!
Verification development for the keymap-drawer rendering engine.

The sources embedded here are src/keymap_drawer/physical_layout.py (the
physical layout builder) and src/keymap_drawer/draw.py (the KeymapDrawer
SVG rendering engine).  Python floats are modelled as real numbers, Python
ints used as counts as naturals, Python strings as Lean strings (lists of
characters).  Each SVG write performed by the drawer is modelled as one
element of an inductive type carrying exactly the interpolated values, so
the emitted document is a list of such elements.

Pieces of the repository that the two source files reference but that are
not part of the given sources (the Point vector class, the KeymapData,
LayoutKey and ComboSpec data holders from keymap.py, the DrawConfig record
from config.py) are modelled from the specification; each such definition
carries a doc comment saying so.
-/

namespace KeymapSpec

/-! ### Text splitting (draw.py, KeymapDrawer._split_text)

Python code:
  return [word.replace("\x00", " ") for word in text.replace("  ", "\x00").split()]

The two str.replace calls are specialised to their concrete arguments:
replacing the two-character pattern "  " (leftmost, non-overlapping) by the
sentinel NUL, and replacing the single character NUL by a space. -/

/-- Python str.isspace characters relevant to str.split() (ASCII whitespace). -/
def isPySpace (c : Char) : Bool :=
  c = ' ' || c = '\t' || c = '\n' || c = '\r' || c = '\x0b' || c = '\x0c'

/-- text.replace("  ", "\x00"): leftmost non-overlapping replacement of two
consecutive spaces by the NUL sentinel. -/
def replaceDoubleSpace : List Char → List Char
  | ' ' :: ' ' :: rest => '\x00' :: replaceDoubleSpace rest
  | c :: rest => c :: replaceDoubleSpace rest
  | [] => []

/-- word.replace("\x00", " "): every NUL sentinel becomes a space. -/
def replaceNulBySpace (w : List Char) : List Char :=
  w.map (fun c => if c = '\x00' then ' ' else c)

/-- Helper for str.split(): accumulate the current token (reversed). -/
def pySplitAux (cur : List Char) : List Char → List (List Char)
  | [] => if cur.isEmpty then [] else [cur.reverse]
  | c :: rest =>
    if isPySpace c then
      if cur.isEmpty then pySplitAux [] rest else cur.reverse :: pySplitAux [] rest
    else pySplitAux (c :: cur) rest

/-- Python str.split() with no separator: maximal runs of non-whitespace. -/
def pySplit (s : List Char) : List (List Char) :=
  pySplitAux [] s

/-- KeymapDrawer._split_text from draw.py. -/
def split_text (text : String) : List String :=
  (pySplit (replaceDoubleSpace text.data)).map (fun w => String.mk (replaceNulBySpace w))

/-! ### Glyph name search (draw.py, KeymapDrawer._is_glyph)

The class attribute _glyph_name_re is the regex pattern dollar-dollar
(captured dot-star) dollar-dollar, used with re.search: the match may start
anywhere in the word (leftmost starting position wins) and the captured
group is greedy (the closing delimiter is the last one reachable without
crossing a newline, since the dot does not match a newline). -/

/-- Does the list start with the two-character delimiter "$$"? -/
def ddAt : List Char → Bool
  | '$' :: '$' :: _ => true
  | _ => false

/-- Scan the characters after an opening "$$": record a candidate capture
each time a closing "$$" starts at the current position, stop at a newline
(the dot cannot cross it), and keep the last candidate (greedy star). -/
def greedyCapture (acc : List Char) (best : Option (List Char)) : List Char → Option (List Char)
  | [] => best
  | c :: rest =>
    if c = '\n' then best
    else greedyCapture (c :: acc) (if ddAt (c :: rest) then some acc.reverse else best) rest

/-- Attempt a regex match anchored at the current position: an opening "$$"
followed by a greedy capture up to a closing "$$". -/
def tryOpen : List Char → Option (List Char)
  | '$' :: '$' :: rest => greedyCapture [] none rest
  | _ => none

/-- re.search for the _glyph_name_re pattern: try successive starting
positions left to right and return the first (greedy) match. -/
def glyphSearch : List Char → Option (List Char)
  | [] => none
  | c :: rest =>
    match tryOpen (c :: rest) with
    | some cap => some cap
    | none => glyphSearch rest

/-- KeymapDrawer._is_glyph from draw.py: a single word in which the glyph
pattern is found (by search) yields the captured glyph name. -/
def is_glyph (words : List String) : Option String :=
  match words with
  | [w] => (glyphSearch w.data).map (fun l => String.mk l)
  | _ => none

/-! ### View-box parsing (draw.py, KeymapDrawer._view_box_dimensions_re)

The class attribute is the regex
  <svg dot-star viewbox="(-?digits(.digits)?) ws (-?digits(.digits)?) ws
  (digits(.digits)?) ws (digits(.digits)?)" dot-star >
compiled with IGNORECASE and ASCII and used with re.match (anchored at the
start of the glyph markup).  The greedy dot-star before the attribute picks
the last viewbox= occurrence whose tail parses; the dot does not cross
newlines; the first two numbers may be negative, the last two may not. -/

/-- Case-insensitive literal prefix test (for the <svg and viewbox= literals). -/
def litCIPref : List Char → List Char → Bool
  | [], _ => true
  | _ :: _, [] => false
  | p :: ps, c :: cs => (Char.toLower c = Char.toLower p) && litCIPref ps cs

/-- All suffixes following an occurrence of the literal pattern, scanning left
to right and stopping at a newline (the preceding dot-star cannot cross it). -/
def scanTargets (pat : List Char) : List Char → List (List Char)
  | [] => []
  | c :: rest =>
    if c = '\n' then []
    else
      (if litCIPref pat (c :: rest) then [(c :: rest).drop pat.length] else []) ++
        scanTargets pat rest

/-- Digits of a decimal literal to a natural number. -/
def digitsToNat (l : List Char) : ℕ :=
  l.foldl (fun acc c => 10 * acc + (c.toNat - 48)) 0

/-- The rational value of a decimal literal given as sign, integer part and
fractional digits (float(v) on the matched group, with reals standing in
for Python floats). -/
def numOfParts (neg : Bool) (ip : ℕ) (fdigits : List Char) : ℚ :=
  let k := fdigits.length
  let n : ℤ := ((ip * 10 ^ k + digitsToNat fdigits : ℕ) : ℤ)
  mkRat (if neg then -n else n) (10 ^ k)

/-- One number group of the view-box regex: optional minus sign (only when
allowNeg), one or more digits, optionally a dot followed by one or more
digits (if the dot is not followed by a digit the fractional part is not
consumed, as the regex group is optional).  Returns the value and the rest. -/
def parseNum (allowNeg : Bool) (s : List Char) : Option (ℚ × List Char) :=
  let negAndRest : Bool × List Char :=
    match s with
    | '-' :: r => if allowNeg then (true, r) else (false, s)
    | _ => (false, s)
  let neg := negAndRest.1
  let s1 := negAndRest.2
  let ds := s1.takeWhile Char.isDigit
  let r1 := s1.dropWhile Char.isDigit
  if ds.isEmpty then none
  else
    match r1 with
    | '.' :: r2 =>
      let fs := r2.takeWhile Char.isDigit
      let r3 := r2.dropWhile Char.isDigit
      if fs.isEmpty then some (numOfParts neg (digitsToNat ds) [], r1)
      else some (numOfParts neg (digitsToNat ds) fs, r3)
    | _ => some (numOfParts neg (digitsToNat ds) [], r1)

/-- One-or-more whitespace separator between the number groups. -/
def skipWs1 (s : List Char) : Option (List Char) :=
  if (s.takeWhile isPySpace).isEmpty then none else some (s.dropWhile isPySpace)

/-- The trailing dot-star followed by a closing angle bracket: some such
bracket must be reachable without crossing a newline. -/
def hasGtBeforeNewline : List Char → Bool
  | [] => false
  | c :: rest => if c = '\n' then false else c = '>' || hasGtBeforeNewline rest

/-- The part of the view-box regex after the opening quote of the attribute:
four numbers separated by whitespace, a closing quote, then the tail. -/
def parseAfterViewBoxAttr (s : List Char) : Option (ℚ × ℚ × ℚ × ℚ) := do
  let p1 ← parseNum true s
  let s1 ← skipWs1 p1.2
  let p2 ← parseNum true s1
  let s2 ← skipWs1 p2.2
  let p3 ← parseNum false s2
  let s3 ← skipWs1 p3.2
  let p4 ← parseNum false s3
  match p4.2 with
  | '"' :: rest =>
    if hasGtBeforeNewline rest then some (p1.1, p2.1, p3.1, p4.1) else none
  | _ => none

/-- KeymapDrawer._view_box_dimensions_re matched with re.match against the
raw glyph markup: the four view-box numbers when the pattern matches. -/
def viewBoxParse (s : List Char) : Option (ℚ × ℚ × ℚ × ℚ) :=
  if litCIPref ['<', 's', 'v', 'g'] s then
    (scanTargets ['v', 'i', 'e', 'w', 'b', 'o', 'x', '=', '"'] (s.drop 4)).foldl
      (fun acc cand =>
        match parseAfterViewBoxAttr cand with
        | some q => some q
        | none => acc)
      none
  else none

/-! ### The geometric data model

Point is imported by draw.py from physical_layout but its definition is not
among the given sources; it is modelled from the specification. -/

/-- Modelled from the spec: the Point vector class used by draw.py (not
present in the given src/keymap_drawer/physical_layout.py).  Supports
componentwise addition and subtraction, scalar multiplication, and the
Euclidean norm ("Euclidean distance from box to key" in the spec). -/
@[ext]
structure Point where
  x : ℝ
  y : ℝ

def Point.add (a b : Point) : Point := ⟨a.x + b.x, a.y + b.y⟩

def Point.sub (a b : Point) : Point := ⟨a.x - b.x, a.y - b.y⟩

def Point.smul (c : ℝ) (p : Point) : Point := ⟨c * p.x, c * p.y⟩

instance : Add Point := ⟨Point.add⟩

instance : Sub Point := ⟨Point.sub⟩

instance : SMul ℝ Point := ⟨Point.smul⟩

/-- Modelled from the spec: abs(p) is the Euclidean norm of the Point. -/
noncomputable def Point.abs (p : Point) : ℝ :=
  Real.sqrt (p.x ^ 2 + p.y ^ 2)

@[simp]
theorem Point.add_x (a b : Point) : (a + b).x = a.x + b.x := rfl

@[simp]
theorem Point.add_y (a b : Point) : (a + b).y = a.y + b.y := rfl

@[simp]
theorem Point.sub_x (a b : Point) : (a - b).x = a.x - b.x := rfl

@[simp]
theorem Point.sub_y (a b : Point) : (a - b).y = a.y - b.y := rfl

@[simp]
theorem Point.smul_x (c : ℝ) (p : Point) : (c • p).x = c * p.x := rfl

@[simp]
theorem Point.smul_y (c : ℝ) (p : Point) : (c • p).y = c * p.y := rfl

theorem Point.abs_nonneg (p : Point) : 0 ≤ p.abs :=
  Real.sqrt_nonneg _

theorem Point.abs_smul (c : ℝ) (p : Point) : (c • p).abs = |c| * p.abs := by
  unfold Point.abs
  have h : ((c • p).x ^ 2 + (c • p).y ^ 2) = c ^ 2 * (p.x ^ 2 + p.y ^ 2) := by
    simp only [Point.smul_x, Point.smul_y]; ring
  rw [h, Real.sqrt_mul (sq_nonneg c), Real.sqrt_sq_eq_abs]

/-! ### Physical layout (physical_layout.py)

Module constants KEY_W = 59, KEY_H = 54, SPLIT_GAP = KEY_W / 2.  Row,
column and thumb counts are Python ints used as key counts; they are
modelled as naturals. -/

def KEY_W : ℝ := 59

def KEY_H : ℝ := 54

noncomputable def SPLIT_GAP : ℝ := KEY_W / 2

/-- PhysicalKey from physical_layout.py: position of the key center plus
width, height and rotation (defaults KEY_W, KEY_H, 0). -/
structure PhysicalKey where
  x_pos : ℝ
  y_pos : ℝ
  width : ℝ := KEY_W
  height : ℝ := KEY_H
  rotation : ℝ := 0

noncomputable instance : Inhabited PhysicalKey :=
  ⟨⟨0, 0, KEY_W, KEY_H, 0⟩⟩

/-- The pos attribute used by draw.py (the key center as a Point). -/
def PhysicalKey.pos (k : PhysicalKey) : Point :=
  ⟨k.x_pos, k.y_pos⟩

/-- The create_row helper inside OrthoLayout.create_ortho_layout: n keys
left to right starting at pen position (x, y), advancing by KEY_W. -/
noncomputable def create_row (x y : ℝ) : ℕ → List PhysicalKey
  | 0 => []
  | n + 1 => ⟨x + KEY_W / 2, y + KEY_H / 2, KEY_W, KEY_H, 0⟩ :: create_row (x + KEY_W) y n

/-- The main-grid loop of create_ortho_layout: for each row emit one block
of ncols keys, then a mirrored block if split, then advance by KEY_H. -/
noncomputable def ortho_main_rows (split : Bool) (ncols : ℕ) (y : ℝ) : ℕ → List PhysicalKey
  | 0 => []
  | n + 1 =>
    (create_row 0 y ncols ++
        if split then create_row ((ncols : ℝ) * KEY_W + SPLIT_GAP) y ncols else []) ++
      ortho_main_rows split ncols (y + KEY_H) n

/-- The key list built by OrthoLayout.create_ortho_layout (the pre=True
root validator): main rows, then, if thumbs is nonzero, one thumb row per
half at the left and right positions from the source. -/
noncomputable def create_ortho_layout (split : Bool) (nrows ncols nthumbs : ℕ) : List PhysicalKey :=
  ortho_main_rows split ncols 0 nrows ++
    if nthumbs ≠ 0 then
      create_row (((ncols : ℝ) - (nthumbs : ℝ)) * KEY_W) ((nrows : ℝ) * KEY_H) nthumbs ++
        create_row ((ncols : ℝ) * KEY_W + SPLIT_GAP) ((nrows : ℝ) * KEY_H) nthumbs
    else []

/-- OrthoLayout.check_thumbs (the post root validator): when thumbs is
truthy, assert thumbs does not exceed columns and that the board is split. -/
def check_thumbs (split : Bool) (columns thumbs : ℕ) : Except String Unit :=
  if thumbs ≠ 0 then
    if ¬ (thumbs ≤ columns) then .error "Number of thumbs should not be greater than columns"
    else if ¬ (split = true) then .error "Cannot process non-split keyboard with thumb keys"
    else .ok ()
  else .ok ()

/-- The OrthoLayout model: grid parameters plus the generated key list. -/
structure OrthoLayout where
  split : Bool
  rows : ℕ
  columns : ℕ
  thumbs : ℕ
  keys : List PhysicalKey

/-- Constructing an OrthoLayout through pydantic: the pre=True root
validator create_ortho_layout runs first and builds the key list, then the
post root validator check_thumbs runs and may fail; on failure no object is
produced. -/
noncomputable def ortho_build (split : Bool) (rows columns thumbs : ℕ) :
    Except String OrthoLayout :=
  let keys := create_ortho_layout split rows columns thumbs
  match check_thumbs split columns thumbs with
  | .error e => .error e
  | .ok _ => .ok ⟨split, rows, columns, thumbs, keys⟩

/-- Python max(xs, default=d): d when the list is empty. -/
noncomputable def pymax (d : ℝ) : List ℝ → ℝ
  | [] => d
  | x :: xs => xs.foldl max x

/-- Python min(xs, default=d): d when the list is empty. -/
noncomputable def pymin (d : ℝ) : List ℝ → ℝ
  | [] => d
  | x :: xs => xs.foldl min x

/-- PhysicalLayout.width: the maximal right extent over the keys (Python
max over a nonempty generator; 0 stands for the empty case, which raises). -/
noncomputable def layout_width (keys : List PhysicalKey) : ℝ :=
  pymax 0 (keys.map (fun k => k.x_pos + k.width / 2))

/-- PhysicalLayout.height: the maximal bottom extent over the keys. -/
noncomputable def layout_height (keys : List PhysicalKey) : ℝ :=
  pymax 0 (keys.map (fun k => k.y_pos + k.height / 2))

/-- Modelled from the spec: the layout min_width property used by draw.py
to scale combo offsets ("offset ... scaled by the layout's min dimension");
not present in the given src/keymap_drawer/physical_layout.py. -/
noncomputable def layout_min_width (keys : List PhysicalKey) : ℝ :=
  pymin 0 (keys.map (fun k => k.width))

/-- Modelled from the spec: the layout min_height property used by draw.py
to scale combo offsets; not present in the given physical_layout.py. -/
noncomputable def layout_min_height (keys : List PhysicalKey) : ℝ :=
  pymin 0 (keys.map (fun k => k.height))

/-! ### Keymap data (keymap.py, modelled from the spec)

keymap.py is not among the given sources; LayoutKey, ComboSpec and
KeymapData are modelled from the data model section of the spec. -/

/-- The LegendType literal of draw.py: tap (primary), hold (secondary),
shifted (tertiary). -/
inductive LegendType where
  | tap
  | hold
  | shifted
  deriving DecidableEq

/-- The class string written for a legend slot. -/
def LegendType.str : LegendType → String
  | .tap => "tap"
  | .hold => "hold"
  | .shifted => "shifted"

/-- The five combo alignments from the spec. -/
inductive Align where
  | mid
  | top
  | bottom
  | left
  | right
  deriving DecidableEq

/-- Modelled from the spec: LegendContent / LayoutKey with up to three text
slots plus a type tag used for styling; any slot may be empty (keymap.py is
not among the given sources).  LayoutKey() defaults to all-empty. -/
structure LayoutKey where
  tap : String := ""
  hold : String := ""
  shifted : String := ""
  type : String := ""

instance : Inhabited LayoutKey :=
  ⟨{}⟩

/-- Modelled from the spec: ComboSpec with participant key indices, legend
content, alignment, offset, optional slide, dendron mode (some true =
always, some false = never, none = auto, matching the True/False/None
values tested by draw.py), type tag and active layer names (keymap.py is
not among the given sources). -/
structure ComboSpec where
  key_positions : List ℕ
  key : LayoutKey
  align : Align := .mid
  offset : ℝ := 0
  slide : Option ℝ := none
  dendron : Option Bool := none
  type : String := ""
  layers : List String := []

/-- Modelled from the spec: the KeymapDocument, an ordered mapping of layer
name to layer (a list of LayoutKey), combo specifications, and the physical
layout key list (keymap.py is not among the given sources). -/
structure KeymapData where
  layers : List (String × List LayoutKey)
  combos : List ComboSpec
  layout_keys : List PhysicalKey

/-- Modelled from the spec: KeymapData.get_combos_per_layer returns, for a
layer name, the combos active on that layer (those whose set of layer names
contains it); keymap.py is not among the given sources. -/
def combos_for_layer (combos : List ComboSpec) (name : String) : List ComboSpec :=
  combos.filter (fun c => c.layers.contains name)

/-! ### Draw configuration (config.py, modelled from the spec) -/

/-- Modelled from the spec: the DrawConfig visual constants consumed by
draw.py (config.py is not among the given sources): corner radii, paddings,
line spacing, arc parameters, combo box size, per-slot glyph heights, the
glyph name to raw markup mapping, the verbatim style sheet, and the layer
header colon flag. -/
structure DrawConfig where
  key_rx : ℝ := 0
  key_ry : ℝ := 0
  inner_pad_w : ℝ := 0
  inner_pad_h : ℝ := 0
  outer_pad_w : ℝ := 0
  outer_pad_h : ℝ := 0
  line_spacing : ℝ := 1
  small_pad : ℝ := 0
  arc_radius : ℝ := 6
  arc_scale : ℝ := 1
  combo_w : ℝ := 28
  combo_h : ℝ := 26
  glyph_tap_size : ℝ := 14
  glyph_hold_size : ℝ := 12
  glyph_shifted_size : ℝ := 10
  glyphs : List (String × String) := []
  svg_style : String := ""
  append_colon_to_layer_header : Bool := true

/-! ### The emitted document

Every out.write call of KeymapDrawer is modelled as one element carrying
exactly the values interpolated into the written markup; the rendered
document is the list of elements in write order.  The tspan writes of
_draw_textblock are condensed into one textblock element carrying the
anchor, the words, the classes, the first-line offset dy0 and the line
spacing, which together determine the written bytes. -/

inductive SvgElem where
  | rect (rx ry x y w h : ℝ) (classes : List String)
  | text (x y : ℝ) (content : String) (classes : List String)
  | textblock (x y : ℝ) (words : List String) (classes : List String) (dy0 spacing : ℝ)
  | glyphUse (href : String) (x y height width : ℝ) (classes : List String)
  | pathLine (x y dx dy : ℝ)
  | pathArc (x y line1 : ℝ) (clockwise : Bool) (arcX arcY line2 : ℝ) (xFirst : Bool)
  | groupRotate (r cx cy : ℝ)
  | groupLayer (cls : String)
  | groupClose
  | svgOpen (w h : ℝ)
  | svgClose
  | defsOpen
  | defsClose
  | glyphDef (name : String) (block : String)
  | style (s : String)

/-! ### The drawing primitives of KeymapDrawer (draw.py) -/

/-- KeymapDrawer._draw_rect: a rounded rectangle centered at p. -/
noncomputable def draw_rect (cfg : DrawConfig) (p : Point) (w h : ℝ) (classes : List String) :
    List SvgElem :=
  [.rect cfg.key_rx cfg.key_ry (p.x - w / 2) (p.y - h / 2) w h classes]

/-- KeymapDrawer._draw_text: nothing is written for an empty word. -/
def draw_text (p : Point) (word : String) (classes : List String) : List SvgElem :=
  if word = "" then [] else [.text p.x p.y word classes]

/-- KeymapDrawer._draw_textblock: a stacked text block whose first line is
raised by dy0 = (len(words) - 1) * line_spacing * (1 + shift) / 2. -/
noncomputable def draw_textblock (cfg : DrawConfig) (p : Point) (words : List String)
    (classes : List String) (shift : ℝ) : List SvgElem :=
  [.textblock p.x p.y words classes
      (((words.length : ℝ) - 1) * (cfg.line_spacing * (1 + shift) / 2)) cfg.line_spacing]

/-- The per-slot glyph height chosen by the match in _draw_glyph. -/
def glyph_slot_height (cfg : DrawConfig) : LegendType → ℝ
  | .tap => cfg.glyph_tap_size
  | .hold => cfg.glyph_hold_size
  | .shifted => cfg.glyph_shifted_size

/-- The per-slot vertical offset d_y chosen by the match in _draw_glyph:
half the height for tap, the full height for hold, zero for shifted. -/
noncomputable def glyph_dy (height : ℝ) : LegendType → ℝ
  | .tap => 0.5 * height
  | .hold => height
  | .shifted => 0

/-- The glyph width computed by _draw_glyph from the parsed view-box
numbers: width = (w - x) * (height / (h - y)). -/
noncomputable def glyph_width (height : ℝ) (x y w h : ℚ) : ℝ :=
  ((w : ℝ) - (x : ℝ)) * (height / ((h : ℝ) - (y : ℝ)))

/-- KeymapDrawer._draw_glyph: look the name up in the configured glyph
table; a missing entry, a falsy (empty) entry, or markup whose view-box
does not parse yields False and no output.  Otherwise one use element is
emitted with the slot height, the per-slot offset and the derived width. -/
noncomputable def draw_glyph (cfg : DrawConfig) (p : Point) (name : String) (lt : LegendType)
    (classes : List String) : Bool × List SvgElem :=
  match cfg.glyphs.lookup name with
  | none => (false, [])
  | some glyph =>
    if glyph = "" then (false, [])
    else
      match viewBoxParse glyph.data with
      | none => (false, [])
      | some (x, y, w, h) =>
        let height := glyph_slot_height cfg lt
        let d_y := glyph_dy height lt
        let width := glyph_width height x y w h
        (true,
          [.glyphUse name (p.x - width / 2) (p.y - d_y) height width
              (classes ++ ["glyph", name])])

/-- KeymapDrawer._draw_legend: nothing for an empty word list; the walrus
condition "(glyph := self._is_glyph(words)) and self._draw_glyph(...)"
tests the truthiness of the captured name, so only a found, nonempty name
attempts _draw_glyph (a captured empty string is falsy and falls through);
if the glyph draws, that is the output; otherwise a single word draws as
one text element (empty words draw nothing) and several words draw as a
text block. -/
noncomputable def draw_legend (cfg : DrawConfig) (p : Point) (words : List String)
    (key_type : String) (lt : LegendType) (shift : ℝ) : List SvgElem :=
  if words = [] then []
  else
    let classes := [key_type, lt.str]
    let attempt : Bool × List SvgElem :=
      match is_glyph words with
      | some g => if g = "" then (false, []) else draw_glyph cfg p g lt classes
      | none => (false, [])
    if attempt.1 then attempt.2
    else if words.length = 1 then draw_text p words.headI classes
    else draw_textblock cfg p words classes shift

/-- math.copysign: the magnitude of a with the sign of b (b = 0 gives +|a|,
as the float zero here stands for +0.0). -/
noncomputable def copysign (a b : ℝ) : ℝ :=
  if b < 0 then -|a| else |a|

/-- KeymapDrawer._draw_arc_dendron: a straight segment, a quarter arc and a
second straight segment shortened near the key. -/
noncomputable def draw_arc_dendron (cfg : DrawConfig) (p1 p2 : Point) (xFirst : Bool)
    (shorten : ℝ) : List SvgElem :=
  let arc_x := copysign cfg.arc_radius (p2.x - p1.x)
  let arc_y := copysign cfg.arc_radius (p2.y - p1.y)
  let cw := xor (decide (p2.x > p1.x)) (decide (p2.y > p1.y))
  if xFirst then
    [.pathArc p1.x p1.y (cfg.arc_scale * (p2.x - p1.x) - arc_x) (!cw) arc_x arc_y
        (p2.y - p1.y - arc_y - copysign shorten (p2.y - p1.y)) true]
  else
    [.pathArc p1.x p1.y (cfg.arc_scale * (p2.y - p1.y) - arc_y) cw arc_x arc_y
        (p2.x - p1.x - arc_x - copysign shorten (p2.x - p1.x)) false]

/-- KeymapDrawer._draw_line_dendron: the segment from p1 to p2, shortened
at the p2 end by the given distance only when that distance is truthy and
smaller than the segment length. -/
noncomputable def draw_line_dendron (p1 p2 : Point) (shorten : ℝ) : List SvgElem :=
  let diff := p2 - p1
  let diff2 :=
    if shorten ≠ 0 ∧ shorten < Point.abs diff then (1 - shorten / Point.abs diff) • diff
    else diff
  [.pathLine p1.x p1.y diff2.x diff2.y]

/-- KeymapDrawer.print_key: the rounded key rectangle inset by the inner
padding, the split tap legend with its two-line vertical-alignment shift,
the hold legend near the bottom edge and the shifted legend near the top
edge, all wrapped in a rotation group when the key is rotated. -/
noncomputable def print_key (cfg : DrawConfig) (p0 : Point) (p_key : PhysicalKey)
    (l_key : LayoutKey) : List SvgElem :=
  let p := p0 + p_key.pos
  let w := p_key.width
  let h := p_key.height
  let r := p_key.rotation
  let tap_words := split_text l_key.tap
  let shift : ℝ :=
    if tap_words.length = 2 then
      if l_key.shifted ≠ "" ∧ l_key.hold = "" then -1
      else if l_key.hold ≠ "" ∧ l_key.shifted = "" then 1
      else 0
    else 0
  let body :=
    draw_rect cfg p (w - 2 * cfg.inner_pad_w) (h - 2 * cfg.inner_pad_h) [l_key.type, "key"] ++
      draw_legend cfg p tap_words l_key.type .tap shift ++
      draw_legend cfg (p + ⟨0, h / 2 - cfg.inner_pad_h - cfg.small_pad⟩) [l_key.hold]
        l_key.type .hold 0 ++
      draw_legend cfg (p - ⟨0, h / 2 - cfg.inner_pad_h - cfg.small_pad⟩) [l_key.shifted]
        l_key.type .shifted 0
  if r ≠ 0 then [.groupRotate r p.x p.y] ++ body ++ [.groupClose] else body

/-! ### Combo rendering (draw.py, KeymapDrawer.print_combo) -/

/-- The sort key used for the slide selection, as a relation: Python sorts
the participants ascending by the tuple (-abs(k.pos - p_mid), k.pos.x,
k.pos.y), so a precedes b when a is farther from the midpoint, with ties
broken by ascending x and then ascending y. -/
def comboKeyLe (m : Point) (a b : PhysicalKey) : Prop :=
  Point.abs (b.pos - m) < Point.abs (a.pos - m) ∨
    (Point.abs (a.pos - m) = Point.abs (b.pos - m) ∧
      (a.pos.x < b.pos.x ∨ (a.pos.x = b.pos.x ∧ a.pos.y ≤ b.pos.y)))

/-- The Boolean form of the sort relation fed to the (stable) sort. -/
noncomputable def comboKeyLeB (m : Point) (a b : PhysicalKey) : Bool :=
  @decide (comboKeyLe m a b) (Classical.propDecidable _)

/-- The participant key list of a combo: self.layout.keys[p] for each
index (out-of-range indices, which raise in Python, yield the default key). -/
noncomputable def combo_pkeys (keys : List PhysicalKey) (combo : ComboSpec) :
    List PhysicalKey :=
  combo.key_positions.map (fun i => keys.getD i default)

/-- The centroid (1 / len(p_keys)) * sum(k.pos for k in p_keys). -/
noncomputable def combo_centroid (p_keys : List PhysicalKey) : Point :=
  ((1 : ℝ) / (p_keys.length : ℝ)) • (p_keys.foldl (fun acc k => acc + k.pos) ⟨0, 0⟩)

/-- The combo midpoint: the centroid, except that when slide is set the two
participants sorted first by the slide sort key are interpolated with the
weights (1 - slide) / 2 and (1 + slide) / 2.  (With fewer than two
participants Python raises; the centroid stands in for that unreachable
case, as slide requires at least two participants per the data invariant.) -/
noncomputable def combo_pmid (p_keys : List PhysicalKey) (slide : Option ℝ) : Point :=
  let mid := combo_centroid p_keys
  match slide with
  | none => mid
  | some s =>
    match p_keys.mergeSort (comboKeyLeB mid) with
    | a :: b :: _ => ((1 - s) / 2) • a.pos + ((1 + s) / 2) • b.pos
    | _ => mid

/-- The center point p of the combo box: the midpoint for "mid" alignment,
otherwise the matching extreme key edge among the participants pushed
outward by half the inner padding plus the offset scaled by the layout min
dimension.  (The Python min/max over participants requires a nonempty
list; 0 stands for the empty case, which raises.) -/
noncomputable def combo_anchor (cfg : DrawConfig) (keys : List PhysicalKey) (p0 : Point)
    (combo : ComboSpec) : Point :=
  let p_keys := combo_pkeys keys combo
  let p_mid := combo_pmid p_keys combo.slide
  match combo.align with
  | .mid => p0 + p_mid
  | .top =>
    p0 + ⟨p_mid.x,
      pymin 0 (p_keys.map (fun k => k.pos.y - k.height / 2)) - cfg.inner_pad_h / 2 -
        combo.offset * layout_min_height keys⟩
  | .bottom =>
    p0 + ⟨p_mid.x,
      pymax 0 (p_keys.map (fun k => k.pos.y + k.height / 2)) + cfg.inner_pad_h / 2 +
        combo.offset * layout_min_height keys⟩
  | .left =>
    p0 + ⟨pymin 0 (p_keys.map (fun k => k.pos.x - k.width / 2)) - cfg.inner_pad_w / 2 -
        combo.offset * layout_min_width keys,
      p_mid.y⟩
  | .right =>
    p0 + ⟨pymax 0 (p_keys.map (fun k => k.pos.x + k.width / 2)) + cfg.inner_pad_w / 2 +
        combo.offset * layout_min_width keys,
      p_mid.y⟩

/-- The dendron paths of print_combo: nothing when dendron is False; arcs
for the edge alignments with the shorter clip when the key lies within the
combo box footprint along the perpendicular axis; for "mid" alignment a
straight line per participant, drawn only when dendron is True or the key
center is at least k.width - 1 away from the box center. -/
noncomputable def combo_dendrons (cfg : DrawConfig) (keys : List PhysicalKey) (p0 : Point)
    (combo : ComboSpec) : List SvgElem :=
  let p_keys := combo_pkeys keys combo
  let p := combo_anchor cfg keys p0 combo
  if combo.dendron = some false then []
  else
    match combo.align with
    | .top | .bottom =>
      p_keys.flatMap (fun k =>
        draw_arc_dendron cfg p (p0 + k.pos) true
          (if |p0.x + k.pos.x - p.x| < cfg.combo_w / 2 then k.height / 5 else k.height / 3))
    | .left | .right =>
      p_keys.flatMap (fun k =>
        draw_arc_dendron cfg p (p0 + k.pos) false
          (if |p0.y + k.pos.y - p.y| < cfg.combo_h / 2 then k.width / 5 else k.width / 3))
    | .mid =>
      p_keys.flatMap (fun k =>
        if combo.dendron = some true ∨ Point.abs (p0 + k.pos - p) ≥ k.width - 1 then
          draw_line_dendron p (p0 + k.pos) (k.width / 3)
        else [])

/-- KeymapDrawer.print_combo: the dendrons, then the combo box rectangle,
then the three legend slots anchored to the box. -/
noncomputable def print_combo (cfg : DrawConfig) (keys : List PhysicalKey) (p0 : Point)
    (combo : ComboSpec) : List SvgElem :=
  let p := combo_anchor cfg keys p0 combo
  combo_dendrons cfg keys p0 combo ++
    draw_rect cfg p cfg.combo_w cfg.combo_h [combo.type] ++
    draw_legend cfg p (split_text combo.key.tap) combo.type .tap 0 ++
    draw_legend cfg (p + ⟨0, cfg.combo_h / 2 - cfg.small_pad⟩) [combo.key.hold]
      combo.type .hold 0 ++
    draw_legend cfg (p - ⟨0, cfg.combo_h / 2 - cfg.small_pad⟩) [combo.key.shifted]
      combo.type .shifted 0

/-! ### Layer and board rendering (draw.py) -/

/-- KeymapDrawer.print_layer: each physical key zipped with its layer
legend (replaced by the blank LayoutKey when the layer is drawn empty),
then the combos of the layer. -/
noncomputable def print_layer (cfg : DrawConfig) (keys : List PhysicalKey) (p0 : Point)
    (layer_keys : List LayoutKey) (combos : List ComboSpec) (empty_layer : Bool) :
    List SvgElem :=
  (keys.zip layer_keys).flatMap
      (fun pair => print_key cfg p0 pair.1 (if empty_layer then default else pair.2)) ++
    combos.flatMap (fun c => print_combo cfg keys p0 c)

/-- The reserved extra spacing above and below one layer: the maximal
scaled offset among its combos aligned top, and among those aligned bottom
(max with default 0.0). -/
noncomputable def layer_offsets (keys : List PhysicalKey) (combos : List ComboSpec) : ℝ × ℝ :=
  (pymax 0 ((combos.filter (fun c => c.align = Align.top)).map
      (fun c => c.offset * layout_min_height keys)),
    pymax 0 ((combos.filter (fun c => c.align = Align.bottom)).map
      (fun c => c.offset * layout_min_height keys)))

/-- One iteration of the layer loop of print_board: the layer group with
its header label, keys and combos, threading the running pen position. -/
noncomputable def board_layer_step (cfg : DrawConfig) (keys : List PhysicalKey)
    (combos_only : Bool) (acc : Point × List SvgElem)
    (entry : (String × List LayoutKey) × List ComboSpec) : Point × List SvgElem :=
  let p := acc.1
  let name := entry.1.1
  let header := if cfg.append_colon_to_layer_header then name ++ ":" else name
  let offs := layer_offsets keys entry.2
  let p1 := p + ⟨0, cfg.outer_pad_h + offs.1⟩
  let body :=
    [SvgElem.groupLayer ("layer-" ++ name)] ++
      draw_text (p + ⟨0, cfg.outer_pad_h / 2⟩) header ["label"] ++
      print_layer cfg keys p1 entry.1.2 entry.2 combos_only ++
      [SvgElem.groupClose]
  (p1 + ⟨0, layout_height keys + offs.2⟩, acc.2 ++ body)

/-- KeymapDrawer.print_board: the layer-subset assertion fires before the
first write; on failure the output (first component) is empty and the error
is returned, modelling an untouched output sink.  Otherwise the svg
envelope, the glyph definitions block (raw markup; the width/height
attribute scrub is byte-level and not modelled), the style block and the
per-layer groups are emitted in write order. -/
noncomputable def print_board (cfg : DrawConfig) (km : KeymapData) (draw_layers : List String)
    (keys_only combos_only : Bool) : List SvgElem × Option String :=
  if draw_layers ≠ [] ∧ ¬ draw_layers.all (fun l => (km.layers.map Prod.fst).contains l) then
    ([], some "Some layer names selected for drawing are not in the keymap")
  else
    let layers :=
      if draw_layers ≠ [] then km.layers.filter (fun nl => draw_layers.contains nl.1)
      else km.layers
    let withCombos : List ((String × List LayoutKey) × List ComboSpec) :=
      layers.map (fun nl =>
        (nl, if keys_only then [] else combos_for_layer km.combos nl.1))
    let offs := withCombos.map (fun e => layer_offsets km.layout_keys e.2)
    let board_w := layout_width km.layout_keys + 2 * cfg.outer_pad_w
    let board_h :=
      (layers.length : ℝ) * layout_height km.layout_keys +
        ((layers.length : ℝ) + 1) * cfg.outer_pad_h +
        (offs.map (fun o => o.1 + o.2)).sum
    let header : List SvgElem :=
      [.svgOpen board_w board_h, .defsOpen] ++
        cfg.glyphs.map (fun nb => SvgElem.glyphDef nb.1 nb.2) ++
        [.defsClose, .style cfg.svg_style]
    let start : Point := ⟨cfg.outer_pad_w, 0⟩
    (header ++
        (withCombos.foldl (board_layer_step cfg km.layout_keys combos_only) (start, [])).2 ++
        [.svgClose],
      none)

/-! ## Claims

One theorem per claim from the frozen claim list, with witnesses for the
theorems that carry hypotheses and counterexamples for the corrected
claims. -/

/-- C7: splitting the legend text "foo  bar baz" (a literal double space,
then a single space) yields exactly the two line-tokens "foo bar" (the
double space preserved as one space) and "baz" (the single space acting as
a line-break delimiter). -/
theorem C7_split_double_space :
    split_text "foo  bar baz" = ["foo bar", "baz"] := by
  decide

/-- C10: the sentinel used by _split_text to protect double spaces leaks:
no returned token ever contains a NUL character, every input NUL is
rewritten to a space, and in particular the input "a NUL b" splits to the
single token "a b", which differs from the input text, so the split is
faithful only for NUL-free inputs. -/
theorem C10_nul_sentinel_leak :
    (∀ s : String, ∀ tok ∈ split_text s, '\x00' ∉ tok.data) ∧
      split_text "a\x00b" = ["a b"] ∧ ("a b" : String) ≠ "a\x00b" := by
  refine ⟨?_, by decide, by decide⟩
  intro s tok htok
  simp only [split_text, List.mem_map] at htok
  obtain ⟨w, -, rfl⟩ := htok
  intro hmem
  have h2 : '\x00' ∈ replaceNulBySpace w := hmem
  simp only [replaceNulBySpace, List.mem_map] at h2
  obtain ⟨c, -, hc⟩ := h2
  by_cases h : c = '\x00'
  · simp only [h, if_pos rfl] at hc
    exact absurd hc (by decide)
  · rw [if_neg h] at hc
    exact h hc

/-- C10 witness: the token produced for the concrete NUL-carrying input is
NUL-free. -/
theorem C10_nul_sentinel_leak_witness : '\x00' ∉ ("a b" : String).data :=
  C10_nul_sentinel_leak.1 "a\x00b" "a b"
    (by rw [C10_nul_sentinel_leak.2.1]; exact List.mem_singleton.mpr rfl)

/-! ### Helper lemmas about _draw_glyph and _draw_legend -/

theorem viewBoxParse_nil : viewBoxParse [] = none := rfl

/-- The success flag of _draw_glyph holds exactly when the glyph table has
the name and the markup carries a parsable view-box. -/
theorem draw_glyph_fst_iff (cfg : DrawConfig) (p : Point) (name : String) (lt : LegendType)
    (cls : List String) :
    (draw_glyph cfg p name lt cls).1 = true ↔
      ∃ markup vb, cfg.glyphs.lookup name = some markup ∧
        viewBoxParse markup.data = some vb := by
  cases hl : cfg.glyphs.lookup name with
  | none => simp [draw_glyph, hl]
  | some markup =>
    by_cases he : markup = ""
    · subst he
      simp only [draw_glyph, hl, if_pos rfl]
      constructor
      · intro h
        exact absurd h (by simp)
      · rintro ⟨m, vb, hm, hv⟩
        injection hm with hm
        subst hm
        rw [show ("" : String).data = [] from rfl, viewBoxParse_nil] at hv
        exact Option.noConfusion hv
    · cases hv : viewBoxParse markup.data with
      | none => simp [draw_glyph, hl, he, hv]
      | some vb =>
        obtain ⟨x, y, w, h⟩ := vb
        simp [draw_glyph, hl, he, hv]

/-- When _draw_glyph succeeds its output is exactly one use element with
the slot height, the per-slot vertical offset and the aspect-derived width. -/
theorem draw_glyph_eq (cfg : DrawConfig) (p : Point) (name : String) (lt : LegendType)
    (cls : List String) (markup : String) (x y w h : ℚ)
    (h1 : cfg.glyphs.lookup name = some markup)
    (h2 : viewBoxParse markup.data = some (x, y, w, h)) :
    draw_glyph cfg p name lt cls =
      (true,
        [SvgElem.glyphUse name (p.x - glyph_width (glyph_slot_height cfg lt) x y w h / 2)
            (p.y - glyph_dy (glyph_slot_height cfg lt) lt) (glyph_slot_height cfg lt)
            (glyph_width (glyph_slot_height cfg lt) x y w h) (cls ++ ["glyph", name])]) := by
  have he : markup ≠ "" := by
    rintro rfl
    rw [show ("" : String).data = [] from rfl, viewBoxParse_nil] at h2
    exact Option.noConfusion h2
  simp only [draw_glyph, h1, if_neg he, h2]

theorem draw_text_no_glyphUse (p : Point) (word : String) (classes : List String)
    (href : String) (gx gy gh gw : ℝ) (cls : List String) :
    SvgElem.glyphUse href gx gy gh gw cls ∉ draw_text p word classes := by
  unfold draw_text
  split
  · exact List.not_mem_nil _
  · intro hmem
    rcases List.mem_singleton.mp hmem with h
    exact SvgElem.noConfusion h

theorem draw_textblock_no_glyphUse (cfg : DrawConfig) (p : Point) (words : List String)
    (classes : List String) (shift : ℝ) (href : String) (gx gy gh gw : ℝ)
    (cls : List String) :
    SvgElem.glyphUse href gx gy gh gw cls ∉ draw_textblock cfg p words classes shift := by
  unfold draw_textblock
  intro hmem
  rcases List.mem_singleton.mp hmem with h
  exact SvgElem.noConfusion h

/-- Inversion for _is_glyph: a glyph name is found exactly in a one-word
legend whose word contains a search match of the glyph pattern. -/
theorem is_glyph_some_iff (words : List String) (g : String) :
    is_glyph words = some g ↔
      ∃ w l, words = [w] ∧ glyphSearch w.data = some l ∧ g = String.mk l := by
  match words with
  | [] => simp [is_glyph]
  | [w] =>
    cases hs : glyphSearch w.data with
    | none => simp [is_glyph, hs]
    | some l =>
      simp only [is_glyph, hs, Option.map_some]
      constructor
      · intro h
        injection h with h
        exact ⟨w, l, rfl, hs, h.symm⟩
      · rintro ⟨w2, l2, hw2, hl2, rfl⟩
        injection hw2 with hw2
        subst hw2
        rw [hs] at hl2
        injection hl2 with hl2
        subst hl2
        rfl
  | a :: b :: t => simp [is_glyph]

/-- Unfolding _draw_legend when no glyph name is found in the words. -/
theorem draw_legend_eq_no_glyph (cfg : DrawConfig) (p : Point) (words : List String)
    (kt : String) (lt : LegendType) (shift : ℝ) (hw : words ≠ [])
    (hg : is_glyph words = none) :
    draw_legend cfg p words kt lt shift =
      if words.length = 1 then draw_text p words.headI [kt, lt.str]
      else draw_textblock cfg p words [kt, lt.str] shift := by
  simp [draw_legend, if_neg hw, hg]

/-- Unfolding _draw_legend when a nonempty glyph name is found and draws. -/
theorem draw_legend_eq_glyph_true (cfg : DrawConfig) (p : Point) (words : List String)
    (kt : String) (lt : LegendType) (shift : ℝ) (g : String) (hw : words ≠ [])
    (hg : is_glyph words = some g) (hge : g ≠ "")
    (hd : (draw_glyph cfg p g lt [kt, lt.str]).1 = true) :
    draw_legend cfg p words kt lt shift = (draw_glyph cfg p g lt [kt, lt.str]).2 := by
  simp [draw_legend, if_neg hw, hg, if_neg hge, hd]

/-- Unfolding _draw_legend when a nonempty glyph name is found but does not
draw: the raw token falls back to text rendering. -/
theorem draw_legend_eq_glyph_false (cfg : DrawConfig) (p : Point) (words : List String)
    (kt : String) (lt : LegendType) (shift : ℝ) (g : String) (hw : words ≠ [])
    (hg : is_glyph words = some g) (hge : g ≠ "")
    (hd : (draw_glyph cfg p g lt [kt, lt.str]).1 = false) :
    draw_legend cfg p words kt lt shift =
      if words.length = 1 then draw_text p words.headI [kt, lt.str]
      else draw_textblock cfg p words [kt, lt.str] shift := by
  simp [draw_legend, if_neg hw, hg, if_neg hge, hd]

/-- Unfolding _draw_legend when the captured glyph name is empty: the
Python truthiness gate skips _draw_glyph and the token renders as text. -/
theorem draw_legend_eq_glyph_empty (cfg : DrawConfig) (p : Point) (words : List String)
    (kt : String) (lt : LegendType) (shift : ℝ) (hw : words ≠ [])
    (hg : is_glyph words = some "") :
    draw_legend cfg p words kt lt shift =
      if words.length = 1 then draw_text p words.headI [kt, lt.str]
      else draw_textblock cfg p words [kt, lt.str] shift := by
  simp [draw_legend, if_neg hw, hg]

/-- The core of claim C1: _draw_legend emits a glyph use element exactly
when the legend is a single word in which the glyph regex finds (by search,
anywhere in the word) a nonempty name — the Python truthiness gate on the
captured name skips _draw_glyph for an empty capture — that the
configuration resolves with a parsable view-box. -/
theorem draw_legend_glyph_iff (cfg : DrawConfig) (p : Point) (words : List String)
    (kt : String) (lt : LegendType) (shift : ℝ) :
    (∃ href gx gy gh gw cls,
        SvgElem.glyphUse href gx gy gh gw cls ∈ draw_legend cfg p words kt lt shift) ↔
      ∃ w l markup vb, words = [w] ∧ glyphSearch w.data = some l ∧ l ≠ [] ∧
        cfg.glyphs.lookup (String.mk l) = some markup ∧
        viewBoxParse markup.data = some vb := by
  by_cases hw : words = []
  · subst hw
    simp [draw_legend]
  · cases hg : is_glyph words with
    | none =>
      rw [draw_legend_eq_no_glyph cfg p words kt lt shift hw hg]
      constructor
      · rintro ⟨href, gx, gy, gh, gw, cls, hmem⟩
        split at hmem
        · exact absurd hmem (draw_text_no_glyphUse _ _ _ _ _ _ _ _ _)
        · exact absurd hmem (draw_textblock_no_glyphUse _ _ _ _ _ _ _ _ _ _ _)
      · rintro ⟨w, l, markup, vb, rfl, hs, -, -, -⟩
        rw [(is_glyph_some_iff [w] (String.mk l)).mpr ⟨w, l, rfl, hs, rfl⟩] at hg
        exact Option.noConfusion hg
    | some g =>
      obtain ⟨w, l, rfl, hs, rfl⟩ := (is_glyph_some_iff words g).mp hg
      by_cases hl : l = []
      · subst hl
        have hg2 : is_glyph [w] = some "" := hg
        rw [draw_legend_eq_glyph_empty cfg p [w] kt lt shift hw hg2]
        constructor
        · rintro ⟨href, gx, gy, gh, gw, cls, hmem⟩
          split at hmem
          · exact absurd hmem (draw_text_no_glyphUse _ _ _ _ _ _ _ _ _)
          · exact absurd hmem (draw_textblock_no_glyphUse _ _ _ _ _ _ _ _ _ _ _)
        · rintro ⟨w2, l2, markup, vb, hw2, hs2, hl2, -, -⟩
          injection hw2 with hw2 _
          subst hw2
          rw [hs] at hs2
          injection hs2 with hs2
          exact absurd hs2.symm hl2
      · have hge : String.mk l ≠ "" := fun h => hl (congrArg String.data h)
        by_cases hd : (draw_glyph cfg p (String.mk l) lt [kt, lt.str]).1 = true
        · obtain ⟨markup, vb, hm, hv⟩ :=
            (draw_glyph_fst_iff cfg p (String.mk l) lt [kt, lt.str]).mp hd
          constructor
          · intro _
            exact ⟨w, l, markup, vb, rfl, hs, hl, hm, hv⟩
          · intro _
            obtain ⟨x, y, wq, hq⟩ := vb
            rw [draw_legend_eq_glyph_true cfg p [w] kt lt shift (String.mk l) hw hg hge hd,
              draw_glyph_eq cfg p (String.mk l) lt [kt, lt.str] markup x y wq hq hm hv]
            exact ⟨String.mk l, _, _, _, _, _, List.mem_singleton.mpr rfl⟩
        · rw [Bool.not_eq_true] at hd
          rw [draw_legend_eq_glyph_false cfg p [w] kt lt shift (String.mk l) hw hg hge hd]
          constructor
          · rintro ⟨href, gx, gy, gh, gw, cls, hmem⟩
            split at hmem
            · exact absurd hmem (draw_text_no_glyphUse _ _ _ _ _ _ _ _ _)
            · exact absurd hmem (draw_textblock_no_glyphUse _ _ _ _ _ _ _ _ _ _ _)
          · rintro ⟨w2, l2, markup, vb, hw2, hs2, -, hm, hv⟩
            injection hw2 with hw2 _
            subst hw2
            rw [hs] at hs2
            injection hs2 with hs2
            subst hs2
            rw [(draw_glyph_fst_iff cfg p (String.mk l) lt [kt, lt.str]).mpr
              ⟨markup, vb, hm, hv⟩] at hd
            exact Bool.noConfusion hd

/-! ### A concrete configuration used by witnesses and counterexamples -/

/-- A glyph markup whose view-box has nonzero min-x: (x, y, w, h) parse as
(10, 0, 20, 10). -/
def iconMarkup : String := "<svg viewbox=\"10 0 20 10\"><path d=\"m0 0\"/></svg>"

/-- A configuration (all other constants default) whose glyph table holds
one glyph named icon. -/
def testCfg : DrawConfig :=
  { glyphs := [("icon", iconMarkup)] }

theorem testCfg_lookup_icon : testCfg.glyphs.lookup "icon" = some iconMarkup := by
  decide

theorem iconMarkup_viewbox : viewBoxParse iconMarkup.data = some (10, 0, 20, 10) := by
  decide

/-- C1 (amended): glyph rendering is attempted and succeeds if and only if
the legend consists of exactly one token in which the glyph-reference
pattern is found by substring search with a nonempty captured name (the
truthiness test on the captured name skips an empty capture such as the
token consisting only of the two delimiter pairs, which renders as text)
and the found name resolves (a glyph with that name exists in the
configuration and its view-box parses); a legend of two tokens never
renders a glyph.  The original claim fails because the search also finds
the pattern inside the single token "$$icon$$extra", which therefore
renders as the glyph named icon rather than as text. -/
theorem C1_glyph_resolution (cfg : DrawConfig) (p : Point) (words : List String)
    (kt : String) (lt : LegendType) (shift : ℝ) :
    (∃ href gx gy gh gw cls,
        SvgElem.glyphUse href gx gy gh gw cls ∈ draw_legend cfg p words kt lt shift) ↔
      ∃ w l markup vb, words = [w] ∧ glyphSearch w.data = some l ∧ l ≠ [] ∧
        cfg.glyphs.lookup (String.mk l) = some markup ∧
        viewBoxParse markup.data = some vb :=
  draw_legend_glyph_iff cfg p words kt lt shift

/-- C1 counterexample: the single token "$$icon$$extra" is not a name
wrapped in the delimiter pair, yet _draw_legend renders it as a glyph (a
use element is emitted) when a glyph named icon exists, contradicting the
claim that it must render as text. -/
theorem C1_counterexample :
    (∃ href gx gy gh gw cls,
        SvgElem.glyphUse href gx gy gh gw cls ∈
          draw_legend testCfg ⟨0, 0⟩ ["$$icon$$extra"] "" LegendType.tap 0) ∧
      ∀ name : String, ("$$icon$$extra" : String) ≠ "$$" ++ name ++ "$$" := by
  constructor
  · have hg : is_glyph ["$$icon$$extra"] = some "icon" := by decide
    have hd : (draw_glyph testCfg ⟨0, 0⟩ "icon" LegendType.tap ["", LegendType.tap.str]).1
        = true :=
      (draw_glyph_fst_iff _ _ _ _ _).mpr
        ⟨iconMarkup, (10, 0, 20, 10), testCfg_lookup_icon, iconMarkup_viewbox⟩
    rw [draw_legend_eq_glyph_true testCfg ⟨0, 0⟩ ["$$icon$$extra"] "" LegendType.tap 0
        "icon" (by simp) hg (by decide) hd,
      draw_glyph_eq testCfg ⟨0, 0⟩ "icon" LegendType.tap ["", LegendType.tap.str]
        iconMarkup 10 0 20 10 testCfg_lookup_icon iconMarkup_viewbox]
    exact ⟨"icon", _, _, _, _, _, List.mem_singleton.mpr rfl⟩
  · intro name h
    have h2 := congrArg (fun s : String => s.data.reverse.head?) h
    simp only at h2
    have h3 : (("$$" ++ name ++ "$$" : String)).data.reverse.head? = some '$' := by
      rw [String.data_append, String.data_append, List.reverse_append]
      rfl
    rw [h3] at h2
    have h4 : (("$$icon$$extra" : String)).data.reverse.head? = some 'a' := by decide
    rw [h4] at h2
    injection h2 with h5
    exact absurd h5 (by decide)

/-- C5 (amended): for every glyph whose view-box parses as (x, y, w, h),
the rendered glyph has the configured height of its legend slot
(independent per slot), width (w - x) * (height / (h - y)) — which equals
height * w / h only when x = 0 (and y = 0) — and the per-slot vertical
offset: half the height for the primary slot, the full height for the
secondary slot, none for the tertiary slot. -/
theorem C5_glyph_scaling (cfg : DrawConfig) (p : Point) (name : String) (lt : LegendType)
    (cls : List String) (markup : String) (x y w h : ℚ)
    (h1 : cfg.glyphs.lookup name = some markup)
    (h2 : viewBoxParse markup.data = some (x, y, w, h)) :
    draw_glyph cfg p name lt cls =
      (true,
        [SvgElem.glyphUse name (p.x - glyph_width (glyph_slot_height cfg lt) x y w h / 2)
            (p.y - glyph_dy (glyph_slot_height cfg lt) lt) (glyph_slot_height cfg lt)
            (glyph_width (glyph_slot_height cfg lt) x y w h) (cls ++ ["glyph", name])]) :=
  draw_glyph_eq cfg p name lt cls markup x y w h h1 h2

/-- C5 witness: the icon glyph of the concrete configuration draws in the
primary slot with the slot height and the derived width and offset. -/
theorem C5_glyph_scaling_witness :
    draw_glyph testCfg ⟨0, 0⟩ "icon" LegendType.tap [] =
      (true,
        [SvgElem.glyphUse "icon"
            ((⟨0, 0⟩ : Point).x - glyph_width (glyph_slot_height testCfg .tap) 10 0 20 10 / 2)
            ((⟨0, 0⟩ : Point).y - glyph_dy (glyph_slot_height testCfg .tap) .tap)
            (glyph_slot_height testCfg .tap)
            (glyph_width (glyph_slot_height testCfg .tap) 10 0 20 10)
            ([] ++ ["glyph", "icon"])]) :=
  C5_glyph_scaling testCfg ⟨0, 0⟩ "icon" LegendType.tap [] iconMarkup 10 0 20 10
    testCfg_lookup_icon iconMarkup_viewbox

/-- C5 counterexample: for the icon view-box (10, 0, 20, 10) and primary
slot height 14, the emitted width is 14, not the 28 that the formula
height * (w / h) of the original claim would give (w = 20, h = 10 being
the native view-box width and height). -/
theorem C5_counterexample :
    draw_glyph testCfg ⟨0, 0⟩ "icon" LegendType.tap [] =
      (true, [SvgElem.glyphUse "icon" (-7) (-7) 14 14 ["glyph", "icon"]]) ∧
      (14 : ℝ) ≠ glyph_slot_height testCfg LegendType.tap * ((20 : ℝ) / 10) := by
  constructor
  · rw [draw_glyph_eq testCfg ⟨0, 0⟩ "icon" LegendType.tap [] iconMarkup 10 0 20 10
      testCfg_lookup_icon iconMarkup_viewbox]
    norm_num [glyph_width, glyph_slot_height, glyph_dy, testCfg]
  · norm_num [glyph_slot_height, testCfg]

/-! ### Structure of the rows built by create_ortho_layout -/

theorem create_row_length (x y : ℝ) (n : ℕ) : (create_row x y n).length = n := by
  induction n generalizing x with
  | zero => rfl
  | succ n ih => simp [create_row, ih]

/-- The keys of one generated row: the i-th key sits at
x + i * KEY_W + KEY_W / 2 with the default size and no rotation. -/
theorem create_row_mem (x y : ℝ) (n : ℕ) (k : PhysicalKey) :
    k ∈ create_row x y n ↔
      ∃ i : ℕ, i < n ∧
        k = ⟨x + (i : ℝ) * KEY_W + KEY_W / 2, y + KEY_H / 2, KEY_W, KEY_H, 0⟩ := by
  induction n generalizing x with
  | zero => simp [create_row]
  | succ n ih =>
    simp only [create_row, List.mem_cons, ih (x + KEY_W)]
    constructor
    · rintro (rfl | ⟨i, hi, rfl⟩)
      · exact ⟨0, Nat.succ_pos n, by simp⟩
      · refine ⟨i + 1, by omega, ?_⟩
        have : x + KEY_W + (i : ℝ) * KEY_W + KEY_W / 2 =
            x + ((i : ℝ) + 1) * KEY_W + KEY_W / 2 := by ring
        rw [this]
        push_cast
        rfl
    · rintro ⟨i, hi, rfl⟩
      cases i with
      | zero => left; simp
      | succ j =>
        right
        refine ⟨j, by omega, ?_⟩
        have : x + ((j : ℝ) + 1) * KEY_W + KEY_W / 2 =
            x + KEY_W + (j : ℝ) * KEY_W + KEY_W / 2 := by ring
        push_cast
        rw [this]

theorem ortho_main_rows_length (split : Bool) (ncols : ℕ) (y : ℝ) (n : ℕ) :
    (ortho_main_rows split ncols y n).length =
      n * (ncols + if split then ncols else 0) := by
  induction n generalizing y with
  | zero => simp [ortho_main_rows]
  | succ n ih =>
    simp only [ortho_main_rows, List.length_append, create_row_length, ih]
    cases split <;> simp [create_row_length] <;> ring

theorem KEY_W_pos : (0 : ℝ) < KEY_W := by norm_num [KEY_W]

/-- The keys of the main grid: each one belongs to the left or (when
split) right block of some row r, whose pen y is y + r * KEY_H. -/
theorem ortho_main_rows_mem (split : Bool) (ncols : ℕ) (y : ℝ) (n : ℕ) (k : PhysicalKey) :
    k ∈ ortho_main_rows split ncols y n ↔
      ∃ r : ℕ, r < n ∧
        (k ∈ create_row 0 (y + (r : ℝ) * KEY_H) ncols ∨
          (split = true ∧
            k ∈ create_row ((ncols : ℝ) * KEY_W + SPLIT_GAP) (y + (r : ℝ) * KEY_H) ncols)) := by
  induction n generalizing y with
  | zero => simp [ortho_main_rows]
  | succ n ih =>
    simp only [ortho_main_rows, List.mem_append, ih (y + KEY_H)]
    constructor
    · rintro ((h | h) | ⟨r, hr, h⟩)
      · exact ⟨0, Nat.succ_pos n, Or.inl (by simpa using h)⟩
      · rcases hsp : split with hf | ht
        · rw [hsp] at h
          simp at h
        · rw [hsp] at h
          simp only [if_pos rfl] at h
          exact ⟨0, Nat.succ_pos n, Or.inr ⟨rfl, by simpa using h⟩⟩
      · have hy : y + KEY_H + (r : ℝ) * KEY_H = y + ((r + 1 : ℕ) : ℝ) * KEY_H := by
          push_cast
          ring
        rcases h with h | ⟨hsp, h⟩
        · exact ⟨r + 1, by omega, Or.inl (by rwa [hy] at h)⟩
        · exact ⟨r + 1, by omega, Or.inr ⟨hsp, by rwa [hy] at h⟩⟩
    · rintro ⟨r, hr, h⟩
      cases r with
      | zero =>
        rcases h with h | ⟨hsp, h⟩
        · exact Or.inl (Or.inl (by simpa using h))
        · subst hsp
          exact Or.inl (Or.inr (by simpa using h))
      | succ j =>
        have hy : y + ((j + 1 : ℕ) : ℝ) * KEY_H = y + KEY_H + (j : ℝ) * KEY_H := by
          push_cast
          ring
        rcases h with h | ⟨hsp, h⟩
        · exact Or.inr ⟨j, by omega, Or.inl (by rwa [hy] at h)⟩
        · exact Or.inr ⟨j, by omega, Or.inr ⟨hsp, by rwa [hy] at h⟩⟩

/-- C2 (amended): for a valid split grid layout with 0 < thumbs ≤ columns
the builder appends, below the main grid, one extra row of exactly thumbs
keys per half, one key height below the last main row (all thumb key
centers sit at rows * KEY_H + KEY_H / 2, while the last main-row centers
sit at (rows - 1) * KEY_H + KEY_H / 2); the left thumb row is right-aligned
to the right edge of the left column block (its keys end at or before
columns * KEY_W, with one key ending exactly there), while the right thumb
row is left-aligned to the left edge of the right column block (its keys
start at or after columns * KEY_W + SPLIT_GAP, with one key starting
exactly there) — not right-aligned to the right edge of the right block as
originally claimed. -/
theorem C2_thumb_rows (nrows ncols nthumbs : ℕ) (h1 : 0 < nthumbs) (h2 : nthumbs ≤ ncols) :
    create_ortho_layout true nrows ncols nthumbs =
        ortho_main_rows true ncols 0 nrows ++
          (create_row (((ncols : ℝ) - (nthumbs : ℝ)) * KEY_W) ((nrows : ℝ) * KEY_H) nthumbs ++
            create_row ((ncols : ℝ) * KEY_W + SPLIT_GAP) ((nrows : ℝ) * KEY_H) nthumbs) ∧
      (create_row (((ncols : ℝ) - (nthumbs : ℝ)) * KEY_W) ((nrows : ℝ) * KEY_H) nthumbs).length
          = nthumbs ∧
      (create_row ((ncols : ℝ) * KEY_W + SPLIT_GAP) ((nrows : ℝ) * KEY_H) nthumbs).length
          = nthumbs ∧
      (∀ k ∈ create_row (((ncols : ℝ) - (nthumbs : ℝ)) * KEY_W) ((nrows : ℝ) * KEY_H) nthumbs,
        k.y_pos = (nrows : ℝ) * KEY_H + KEY_H / 2 ∧
          k.x_pos + k.width / 2 ≤ (ncols : ℝ) * KEY_W) ∧
      (∃ k ∈ create_row (((ncols : ℝ) - (nthumbs : ℝ)) * KEY_W) ((nrows : ℝ) * KEY_H) nthumbs,
        k.x_pos + k.width / 2 = (ncols : ℝ) * KEY_W) ∧
      (∀ k ∈ create_row ((ncols : ℝ) * KEY_W + SPLIT_GAP) ((nrows : ℝ) * KEY_H) nthumbs,
        k.y_pos = (nrows : ℝ) * KEY_H + KEY_H / 2 ∧
          (ncols : ℝ) * KEY_W + SPLIT_GAP ≤ k.x_pos - k.width / 2) ∧
      (∃ k ∈ create_row ((ncols : ℝ) * KEY_W + SPLIT_GAP) ((nrows : ℝ) * KEY_H) nthumbs,
        k.x_pos - k.width / 2 = (ncols : ℝ) * KEY_W + SPLIT_GAP) ∧
      (0 < nrows → 0 < ncols →
        (∀ k ∈ ortho_main_rows true ncols 0 nrows,
          k.y_pos ≤ ((nrows : ℝ) - 1) * KEY_H + KEY_H / 2) ∧
        (∃ k ∈ ortho_main_rows true ncols 0 nrows,
          k.y_pos = ((nrows : ℝ) - 1) * KEY_H + KEY_H / 2)) := by
  have hW := KEY_W_pos
  have hH : (0 : ℝ) ≤ KEY_H := by norm_num [KEY_H]
  refine ⟨?_, create_row_length _ _ _, create_row_length _ _ _, ?_, ?_, ?_, ?_, ?_⟩
  · unfold create_ortho_layout
    rw [if_pos (by omega : nthumbs ≠ 0)]
  · intro k hk
    rw [create_row_mem] at hk
    obtain ⟨i, hi, rfl⟩ := hk
    refine ⟨rfl, ?_⟩
    have hi2 : (i : ℝ) + 1 ≤ (nthumbs : ℝ) := by exact_mod_cast hi
    nlinarith [mul_le_mul_of_nonneg_right hi2 hW.le]
  · refine ⟨_, (create_row_mem _ _ nthumbs _).mpr ⟨nthumbs - 1, by omega, rfl⟩, ?_⟩
    have hc : ((nthumbs - 1 : ℕ) : ℝ) = (nthumbs : ℝ) - 1 := by
      rw [Nat.cast_sub h1, Nat.cast_one]
    dsimp only
    rw [hc]
    ring
  · intro k hk
    rw [create_row_mem] at hk
    obtain ⟨i, hi, rfl⟩ := hk
    refine ⟨rfl, ?_⟩
    have hi2 : (0 : ℝ) ≤ (i : ℝ) := Nat.cast_nonneg i
    nlinarith [mul_le_mul_of_nonneg_right hi2 hW.le]
  · refine ⟨_, (create_row_mem _ _ nthumbs _).mpr ⟨0, h1, rfl⟩, ?_⟩
    dsimp only
    push_cast
    ring
  · intro hr hc
    constructor
    · intro k hk
      rw [ortho_main_rows_mem] at hk
      obtain ⟨r, hrn, hk⟩ := hk
      have hy : k.y_pos = 0 + (r : ℝ) * KEY_H + KEY_H / 2 := by
        rcases hk with hk | ⟨-, hk⟩ <;>
          · rw [create_row_mem] at hk
            obtain ⟨i, -, rfl⟩ := hk
            rfl
      rw [hy]
      have hrc : (r : ℝ) ≤ (nrows : ℝ) - 1 := by
        have : (r : ℝ) + 1 ≤ (nrows : ℝ) := by exact_mod_cast hrn
        linarith
      nlinarith [mul_le_mul_of_nonneg_right hrc hH]
    · refine ⟨_, (ortho_main_rows_mem true ncols 0 nrows _).mpr
        ⟨nrows - 1, by omega, Or.inl ((create_row_mem _ _ ncols _).mpr ⟨0, hc, rfl⟩)⟩, ?_⟩
      dsimp only
      rw [Nat.cast_sub hr, Nat.cast_one]
      push_cast
      ring

/-- C2 witness: in the split layout with 3 columns and 1 thumb key the left
thumb row indeed reaches the right edge of the left block at 3 * KEY_W. -/
theorem C2_thumb_rows_witness :
    ∃ k ∈ create_row ((((3 : ℕ) : ℝ) - ((1 : ℕ) : ℝ)) * KEY_W) (((1 : ℕ) : ℝ) * KEY_H) 1,
      k.x_pos + k.width / 2 = ((3 : ℕ) : ℝ) * KEY_W :=
  (C2_thumb_rows 1 3 1 (by norm_num) (by norm_num)).2.2.2.2.1

/-- C2 counterexample: in the split grid with one row, three columns and
one thumb key per half, every key of the appended right thumb row ends at
4 * KEY_W + SPLIT_GAP, while the right column block contains a key ending
at 6 * KEY_W + SPLIT_GAP, strictly further right: the right thumb row is
not anchored to the right edge of the right half. -/
theorem C2_counterexample :
    (∀ k ∈ create_row (((3 : ℕ) : ℝ) * KEY_W + SPLIT_GAP) (((1 : ℕ) : ℝ) * KEY_H) 1,
        k.x_pos + k.width / 2 = 4 * KEY_W + SPLIT_GAP) ∧
      (∃ k ∈ ortho_main_rows true 3 0 1,
        k.x_pos + k.width / 2 = 6 * KEY_W + SPLIT_GAP) ∧
      (4 : ℝ) * KEY_W + SPLIT_GAP < 6 * KEY_W + SPLIT_GAP ∧
      create_ortho_layout true 1 3 1 =
        ortho_main_rows true 3 0 1 ++
          (create_row ((((3 : ℕ) : ℝ) - ((1 : ℕ) : ℝ)) * KEY_W) (((1 : ℕ) : ℝ) * KEY_H) 1 ++
            create_row (((3 : ℕ) : ℝ) * KEY_W + SPLIT_GAP) (((1 : ℕ) : ℝ) * KEY_H) 1) := by
  refine ⟨?_, ?_, by norm_num [KEY_W, SPLIT_GAP], ?_⟩
  · intro k hk
    rw [create_row_mem] at hk
    obtain ⟨i, hi, rfl⟩ := hk
    have hz : i = 0 := by omega
    subst hz
    dsimp only
    push_cast
    ring
  · have hmain : ortho_main_rows true 3 0 1 =
        (create_row 0 0 3 ++ create_row (((3 : ℕ) : ℝ) * KEY_W + SPLIT_GAP) 0 3) ++ [] := by
      simp [ortho_main_rows]
    rw [hmain]
    refine ⟨_, List.mem_append.mpr (Or.inl (List.mem_append.mpr (Or.inr
      ((create_row_mem _ _ 3 _).mpr ⟨2, by norm_num, rfl⟩)))), ?_⟩
    dsimp only
    push_cast
    ring
  · unfold create_ortho_layout
    rw [if_pos (by norm_num : (1 : ℕ) ≠ 0)]

/-- C3 (amended): constructing a grid layout with thumbs > columns, or
with thumbs > 0 and split = false, fails with a configuration error and
the failed construction exposes no keys (no layout object is produced);
construction succeeds exactly for the combinations satisfying the
validation rule, and a produced layout carries exactly the generated keys.
However, the key geometry is generated before the failure: the pre=True
root validator create_ortho_layout builds the key list before the
check_thumbs validator runs, and the list is discarded on failure. -/
theorem C3_thumbs_validation (split : Bool) (rows columns thumbs : ℕ) :
    ((∃ l, ortho_build split rows columns thumbs = Except.ok l) ↔
        (thumbs = 0 ∨ (thumbs ≤ columns ∧ split = true))) ∧
      (∀ l, ortho_build split rows columns thumbs = Except.ok l →
        l.keys = create_ortho_layout split rows columns thumbs) := by
  unfold ortho_build check_thumbs
  by_cases h0 : thumbs ≠ 0
  · rw [if_pos h0]
    by_cases hc : thumbs ≤ columns
    · rw [if_neg (by simpa using hc)]
      by_cases hs : split = true
      · rw [if_neg (by simpa using hs)]
        exact ⟨⟨fun _ => Or.inr ⟨hc, hs⟩, fun _ => ⟨_, rfl⟩⟩,
          fun l hl => by injection hl with hl; rw [← hl]⟩
      · rw [if_pos (by simpa using hs)]
        constructor
        · constructor
          · rintro ⟨l, hl⟩
            exact Except.noConfusion hl
          · rintro (h | ⟨-, h⟩)
            · exact absurd h h0
            · exact absurd h hs
        · intro l hl
          exact Except.noConfusion hl
    · rw [if_pos (by simpa using hc)]
      constructor
      · constructor
        · rintro ⟨l, hl⟩
          exact Except.noConfusion hl
        · rintro (h | ⟨h, -⟩)
          · exact absurd h h0
          · exact absurd h hc
      · intro l hl
        exact Except.noConfusion hl
  · rw [if_neg h0]
    push_neg at h0
    exact ⟨⟨fun _ => Or.inl h0, fun _ => ⟨_, rfl⟩⟩,
      fun l hl => by injection hl with hl; rw [← hl]⟩

/-- C3 witness: valid parameters (2 main rows, 3 columns, 2 thumbs, split)
construct successfully. -/
theorem C3_thumbs_validation_witness :
    ∃ l, ortho_build true 2 3 2 = Except.ok l :=
  (C3_thumbs_validation true 2 3 2).1.mpr (Or.inr ⟨by norm_num, rfl⟩)

/-- C3 counterexample: with 1 row, 2 columns and 3 thumbs the construction
fails with the thumbs configuration error, yet the pre-validator that runs
first has already generated 10 keys of geometry (2 x 2 main keys plus 3 + 3
thumb keys), contradicting the claim that the failure occurs before any key
geometry is generated. -/
theorem C3_counterexample :
    ortho_build true 1 2 3 =
        Except.error "Number of thumbs should not be greater than columns" ∧
      (create_ortho_layout true 1 2 3).length = 10 := by
  constructor
  · unfold ortho_build check_thumbs
    rw [if_pos (by norm_num : (3 : ℕ) ≠ 0), if_pos (by norm_num : ¬ (3 : ℕ) ≤ 2)]
  · unfold create_ortho_layout
    rw [if_pos (by norm_num : (3 : ℕ) ≠ 0)]
    simp [List.length_append, ortho_main_rows_length, create_row_length]

/-! ### The straight connector (C8) -/

theorem point_abs_3_4 : Point.abs ((⟨3, 4⟩ : Point) - ⟨0, 0⟩) = 5 := by
  unfold Point.abs
  dsimp only [Point.sub_x, Point.sub_y]
  rw [show ((3 : ℝ) - 0) ^ 2 + ((4 : ℝ) - 0) ^ 2 = 5 ^ 2 by norm_num,
    Real.sqrt_sq (by norm_num)]

/-- C8: for a straight connector from p1 to p2 with shortening distance s,
when s is at least the Euclidean segment length the emitted path is the
full unshortened segment (the direction is never reversed), and when
0 < s < length the key-side endpoint is pulled back along the segment so
that its distance to p2 is exactly s. -/
theorem C8_line_shortening (p1 p2 : Point) (s : ℝ) :
    (Point.abs (p2 - p1) ≤ s →
        draw_line_dendron p1 p2 s =
          [SvgElem.pathLine p1.x p1.y (p2 - p1).x (p2 - p1).y]) ∧
      (0 < s → s < Point.abs (p2 - p1) →
        draw_line_dendron p1 p2 s =
            [SvgElem.pathLine p1.x p1.y ((1 - s / Point.abs (p2 - p1)) • (p2 - p1)).x
                ((1 - s / Point.abs (p2 - p1)) • (p2 - p1)).y] ∧
          Point.abs (p2 - (p1 + (1 - s / Point.abs (p2 - p1)) • (p2 - p1))) = s) := by
  constructor
  · intro hle
    simp only [draw_line_dendron]
    rw [if_neg (by
      rintro ⟨-, hlt⟩
      exact absurd hle (not_le.mpr hlt))]
  · intro hs hsm
    have hm : 0 < Point.abs (p2 - p1) := lt_trans hs hsm
    constructor
    · simp only [draw_line_dendron]
      rw [if_pos ⟨ne_of_gt hs, hsm⟩]
    · have hrw : p2 - (p1 + (1 - s / Point.abs (p2 - p1)) • (p2 - p1)) =
          (s / Point.abs (p2 - p1)) • (p2 - p1) := by
        ext
        · dsimp only [Point.sub_x, Point.add_x, Point.smul_x]
          ring
        · dsimp only [Point.sub_y, Point.add_y, Point.smul_y]
          ring
      rw [hrw, Point.abs_smul, abs_of_nonneg (div_nonneg hs.le hm.le),
        div_mul_cancel₀ s (ne_of_gt hm)]

/-- C8 witness: for the segment from the origin to (3, 4) (length 5) the
shortening distance 7 leaves the full segment, while the distance 1 pulls
the endpoint back to distance exactly 1 from the key. -/
theorem C8_line_shortening_witness :
    (draw_line_dendron ⟨0, 0⟩ ⟨3, 4⟩ 7 =
        [SvgElem.pathLine (⟨0, 0⟩ : Point).x (⟨0, 0⟩ : Point).y
            ((⟨3, 4⟩ : Point) - ⟨0, 0⟩).x ((⟨3, 4⟩ : Point) - ⟨0, 0⟩).y]) ∧
      Point.abs ((⟨3, 4⟩ : Point) -
          ((⟨0, 0⟩ : Point) + (1 - 1 / Point.abs ((⟨3, 4⟩ : Point) - ⟨0, 0⟩)) •
            ((⟨3, 4⟩ : Point) - ⟨0, 0⟩))) = 1 :=
  ⟨(C8_line_shortening ⟨0, 0⟩ ⟨3, 4⟩ 7).1 (by rw [point_abs_3_4]; norm_num),
    ((C8_line_shortening ⟨0, 0⟩ ⟨3, 4⟩ 1).2 (by norm_num)
      (by rw [point_abs_3_4]; norm_num)).2⟩

/-! ### Which print_combo parts can emit straight paths (C4) -/

theorem draw_rect_no_pathLine (cfg : DrawConfig) (p : Point) (w h : ℝ) (cls : List String)
    (a b c d : ℝ) : SvgElem.pathLine a b c d ∉ draw_rect cfg p w h cls := by
  intro hmem
  rcases List.mem_singleton.mp hmem with h
  exact SvgElem.noConfusion h

theorem draw_glyph_snd_no_pathLine (cfg : DrawConfig) (p : Point) (name : String)
    (lt : LegendType) (cls : List String) (a b c d : ℝ) :
    SvgElem.pathLine a b c d ∉ (draw_glyph cfg p name lt cls).2 := by
  cases hl : cfg.glyphs.lookup name with
  | none => simp [draw_glyph, hl]
  | some markup =>
    by_cases he : markup = ""
    · simp [draw_glyph, hl, he]
    · cases hv : viewBoxParse markup.data with
      | none => simp [draw_glyph, hl, he, hv]
      | some vb =>
        obtain ⟨x, y, w, h⟩ := vb
        simp [draw_glyph, hl, he, hv]

theorem draw_legend_no_pathLine (cfg : DrawConfig) (p : Point) (words : List String)
    (kt : String) (lt : LegendType) (shift : ℝ) (a b c d : ℝ) :
    SvgElem.pathLine a b c d ∉ draw_legend cfg p words kt lt shift := by
  by_cases hw : words = []
  · subst hw
    simp [draw_legend]
  · have htext : ∀ q : Point, ∀ word cls2,
        SvgElem.pathLine a b c d ∉ draw_text q word cls2 := by
      intro q word cls2 hmem
      unfold draw_text at hmem
      split at hmem
      · exact List.not_mem_nil _ hmem
      · rcases List.mem_singleton.mp hmem with h
        exact SvgElem.noConfusion h
    have hblock : ∀ q : Point, ∀ ws cls2 sh,
        SvgElem.pathLine a b c d ∉ draw_textblock cfg q ws cls2 sh := by
      intro q ws cls2 sh hmem
      rcases List.mem_singleton.mp hmem with h
      exact SvgElem.noConfusion h
    cases hg : is_glyph words with
    | none =>
      rw [draw_legend_eq_no_glyph cfg p words kt lt shift hw hg]
      split
      · exact htext _ _ _
      · exact hblock _ _ _ _
    | some g =>
      by_cases hge : g = ""
      · subst hge
        rw [draw_legend_eq_glyph_empty cfg p words kt lt shift hw hg]
        split
        · exact htext _ _ _
        · exact hblock _ _ _ _
      · by_cases hd : (draw_glyph cfg p g lt [kt, lt.str]).1 = true
        · rw [draw_legend_eq_glyph_true cfg p words kt lt shift g hw hg hge hd]
          exact draw_glyph_snd_no_pathLine cfg p g lt [kt, lt.str] a b c d
        · rw [Bool.not_eq_true] at hd
          rw [draw_legend_eq_glyph_false cfg p words kt lt shift g hw hg hge hd]
          split
          · exact htext _ _ _
          · exact hblock _ _ _ _

/-- The straight paths inside a printed combo are exactly the straight
paths of its dendron block. -/
theorem print_combo_pathLine_mem (cfg : DrawConfig) (keys : List PhysicalKey) (p0 : Point)
    (combo : ComboSpec) (a b c d : ℝ) :
    SvgElem.pathLine a b c d ∈ print_combo cfg keys p0 combo ↔
      SvgElem.pathLine a b c d ∈ combo_dendrons cfg keys p0 combo := by
  unfold print_combo
  simp only [List.mem_append]
  constructor
  · rintro ((((h | h) | h) | h) | h)
    · exact h
    · exact absurd h (draw_rect_no_pathLine _ _ _ _ _ _ _ _ _)
    · exact absurd h (draw_legend_no_pathLine _ _ _ _ _ _ _ _ _ _)
    · exact absurd h (draw_legend_no_pathLine _ _ _ _ _ _ _ _ _ _)
    · exact absurd h (draw_legend_no_pathLine _ _ _ _ _ _ _ _ _ _)
  · intro h
    exact Or.inl (Or.inl (Or.inl (Or.inl h)))

/-- The dendron block of a mid-aligned combo whose dendron mode is not
"never": one straight path per participant passing the distance test. -/
theorem combo_dendrons_mid_mem (cfg : DrawConfig) (keys : List PhysicalKey) (p0 : Point)
    (combo : ComboSpec) (halign : combo.align = Align.mid)
    (hd : combo.dendron ≠ some false) (e : SvgElem) :
    e ∈ combo_dendrons cfg keys p0 combo ↔
      ∃ k ∈ combo_pkeys keys combo,
        (combo.dendron = some true ∨
          k.width - 1 ≤ Point.abs (p0 + k.pos - combo_anchor cfg keys p0 combo)) ∧
        e ∈ draw_line_dendron (combo_anchor cfg keys p0 combo) (p0 + k.pos)
          (k.width / 3) := by
  simp only [combo_dendrons, halign, if_neg hd]
  rw [List.mem_flatMap]
  constructor
  · rintro ⟨k, hk, hmem⟩
    by_cases hc : combo.dendron = some true ∨
        Point.abs (p0 + k.pos - combo_anchor cfg keys p0 combo) ≥ k.width - 1
    · rw [if_pos hc] at hmem
      exact ⟨k, hk, hc, hmem⟩
    · rw [if_neg hc] at hmem
      exact absurd hmem (List.not_mem_nil _)
  · rintro ⟨k, hk, hc, hmem⟩
    refine ⟨k, hk, ?_⟩
    rw [if_pos hc]
    exact hmem

/-- C4 (amended): for a mid-aligned combo, when dendron mode is "never" no
straight dendron path is emitted at all; otherwise a straight dendron line
to a participant key is drawn if and only if the mode is "always" or the
Euclidean distance from the combo box center to the key center is at least
the key width minus one (the code compares against k.width - 1, not
k.width as originally claimed). -/
theorem C4_mid_dendron (cfg : DrawConfig) (keys : List PhysicalKey) (p0 : Point)
    (combo : ComboSpec) (halign : combo.align = Align.mid) :
    (combo.dendron = some false →
        ∀ a b c d, SvgElem.pathLine a b c d ∉ print_combo cfg keys p0 combo) ∧
      (combo.dendron ≠ some false →
        ∀ a b c d,
          (SvgElem.pathLine a b c d ∈ print_combo cfg keys p0 combo ↔
            ∃ k ∈ combo_pkeys keys combo,
              (combo.dendron = some true ∨
                k.width - 1 ≤ Point.abs (p0 + k.pos - combo_anchor cfg keys p0 combo)) ∧
              SvgElem.pathLine a b c d ∈
                draw_line_dendron (combo_anchor cfg keys p0 combo) (p0 + k.pos)
                  (k.width / 3))) := by
  constructor
  · intro hnever a b c d hmem
    rw [print_combo_pathLine_mem] at hmem
    simp only [combo_dendrons, if_pos hnever] at hmem
    exact List.not_mem_nil _ hmem
  · intro hd a b c d
    rw [print_combo_pathLine_mem]
    exact combo_dendrons_mid_mem cfg keys p0 combo halign hd _

/-! ### A concrete two-key combo (C4, C6) -/

/-- Two default-sized keys whose centers are 117 apart horizontally. -/
noncomputable def cKeys : List PhysicalKey :=
  [⟨0, 0, 59, 54, 0⟩, ⟨117, 0, 59, 54, 0⟩]

/-- A mid-aligned combo over both keys, auto dendron mode, no slide. -/
noncomputable def cCombo : ComboSpec :=
  { key_positions := [0, 1], key := {} }

theorem point_abs_x (a : ℝ) : Point.abs ⟨a, 0⟩ = |a| := by
  unfold Point.abs
  dsimp only
  rw [show a ^ 2 + (0 : ℝ) ^ 2 = a ^ 2 by ring, Real.sqrt_sq_eq_abs]

theorem cCombo_pkeys :
    combo_pkeys cKeys cCombo = [⟨0, 0, 59, 54, 0⟩, ⟨117, 0, 59, 54, 0⟩] := rfl

theorem cCombo_anchor : combo_anchor testCfg cKeys ⟨0, 0⟩ cCombo = ⟨117 / 2, 0⟩ := by
  simp only [combo_anchor, combo_pkeys, combo_pmid, combo_centroid, cCombo, cKeys]
  ext <;> simp [PhysicalKey.pos] <;> norm_num

theorem cKey0_diff :
    (⟨0, 0⟩ : Point) + (⟨0, 0, 59, 54, 0⟩ : PhysicalKey).pos - ⟨117 / 2, 0⟩ =
      ⟨-(117 / 2), 0⟩ := by
  ext <;> simp [PhysicalKey.pos] <;> norm_num

theorem cKey0_distance :
    Point.abs ((⟨0, 0⟩ : Point) + (⟨0, 0, 59, 54, 0⟩ : PhysicalKey).pos - ⟨117 / 2, 0⟩) =
      117 / 2 := by
  rw [cKey0_diff, point_abs_x]
  norm_num

theorem cKey0_dendron :
    draw_line_dendron ⟨117 / 2, 0⟩
        ((⟨0, 0⟩ : Point) + (⟨0, 0, 59, 54, 0⟩ : PhysicalKey).pos) ((59 : ℝ) / 3) =
      [SvgElem.pathLine (117 / 2) 0 (59 / 3 - 117 / 2) 0] := by
  simp only [draw_line_dendron, cKey0_diff, point_abs_x, abs_neg]
  rw [abs_of_nonneg (show (0 : ℝ) ≤ 117 / 2 by norm_num),
    if_pos (show (59 : ℝ) / 3 ≠ 0 ∧ (59 : ℝ) / 3 < 117 / 2 by constructor <;> norm_num)]
  simp only [Point.smul_x, Point.smul_y, List.cons.injEq, SvgElem.pathLine.injEq, and_true,
    true_and]
  exact ⟨by ring, by ring⟩

/-- C4 counterexample: in the concrete mid-aligned combo with auto dendron
mode, the distance from the box center (58.5, 0) to the first key center is
58.5, strictly less than the key width 59, yet the straight dendron to that
key is part of the printed combo — the code draws it because 58.5 is at
least width - 1 = 58, contradicting the claimed threshold of the full key
width. -/
theorem C4_counterexample :
    cCombo.align = Align.mid ∧ cCombo.dendron = none ∧
      (⟨0, 0, 59, 54, 0⟩ : PhysicalKey) ∈ combo_pkeys cKeys cCombo ∧
      Point.abs ((⟨0, 0⟩ : Point) + (⟨0, 0, 59, 54, 0⟩ : PhysicalKey).pos -
          combo_anchor testCfg cKeys ⟨0, 0⟩ cCombo) <
        (⟨0, 0, 59, 54, 0⟩ : PhysicalKey).width ∧
      SvgElem.pathLine (117 / 2) 0 (59 / 3 - 117 / 2) 0 ∈
        draw_line_dendron (combo_anchor testCfg cKeys ⟨0, 0⟩ cCombo)
          ((⟨0, 0⟩ : Point) + (⟨0, 0, 59, 54, 0⟩ : PhysicalKey).pos)
          ((⟨0, 0, 59, 54, 0⟩ : PhysicalKey).width / 3) ∧
      SvgElem.pathLine (117 / 2) 0 (59 / 3 - 117 / 2) 0 ∈
        print_combo testCfg cKeys ⟨0, 0⟩ cCombo := by
  have hmemk : (⟨0, 0, 59, 54, 0⟩ : PhysicalKey) ∈ combo_pkeys cKeys cCombo := by
    rw [cCombo_pkeys]
    exact List.mem_cons_self _ _
  have hdld : SvgElem.pathLine (117 / 2) 0 (59 / 3 - 117 / 2) 0 ∈
      draw_line_dendron (combo_anchor testCfg cKeys ⟨0, 0⟩ cCombo)
        ((⟨0, 0⟩ : Point) + (⟨0, 0, 59, 54, 0⟩ : PhysicalKey).pos)
        ((⟨0, 0, 59, 54, 0⟩ : PhysicalKey).width / 3) := by
    rw [cCombo_anchor,
      show (⟨0, 0, 59, 54, 0⟩ : PhysicalKey).width / 3 = (59 : ℝ) / 3 from rfl,
      cKey0_dendron]
    exact List.mem_singleton.mpr rfl
  refine ⟨rfl, rfl, hmemk, ?_, hdld, ?_⟩
  · rw [cCombo_anchor, cKey0_distance]
    show (117 / 2 : ℝ) < 59
    norm_num
  · rw [print_combo_pathLine_mem,
      combo_dendrons_mid_mem testCfg cKeys ⟨0, 0⟩ cCombo rfl
        (by rw [show cCombo.dendron = none from rfl]; simp)]
    refine ⟨⟨0, 0, 59, 54, 0⟩, hmemk, Or.inr ?_, hdld⟩
    rw [cCombo_anchor, cKey0_distance]
    show (59 : ℝ) - 1 ≤ 117 / 2
    norm_num

/-- C4 witness: with dendron mode "never" the same combo emits no straight
path at all. -/
theorem C4_mid_dendron_witness :
    SvgElem.pathLine (117 / 2) 0 (59 / 3 - 117 / 2) 0 ∉
      print_combo testCfg cKeys ⟨0, 0⟩
        { key_positions := [0, 1], key := {}, dendron := some false } :=
  (C4_mid_dendron testCfg cKeys ⟨0, 0⟩
      { key_positions := [0, 1], key := {}, dendron := some false } rfl).1 rfl _ _ _ _

/-! ### Properties of the slide sort relation (C6) -/

theorem comboKeyLe_refl (m : Point) (a : PhysicalKey) : comboKeyLe m a a :=
  Or.inr ⟨rfl, Or.inr ⟨rfl, le_refl _⟩⟩

theorem comboKeyLe_total (m : Point) (a b : PhysicalKey) :
    comboKeyLe m a b ∨ comboKeyLe m b a := by
  unfold comboKeyLe
  rcases lt_trichotomy (Point.abs (a.pos - m)) (Point.abs (b.pos - m)) with h | h | h
  · exact Or.inr (Or.inl h)
  · rcases lt_trichotomy a.pos.x b.pos.x with hx | hx | hx
    · exact Or.inl (Or.inr ⟨h, Or.inl hx⟩)
    · rcases le_total a.pos.y b.pos.y with hy | hy
      · exact Or.inl (Or.inr ⟨h, Or.inr ⟨hx, hy⟩⟩)
      · exact Or.inr (Or.inr ⟨h.symm, Or.inr ⟨hx.symm, hy⟩⟩)
    · exact Or.inr (Or.inr ⟨h.symm, Or.inl hx⟩)
  · exact Or.inl (Or.inl h)

theorem comboKeyLe_trans (m : Point) (a b c : PhysicalKey) (h1 : comboKeyLe m a b)
    (h2 : comboKeyLe m b c) : comboKeyLe m a c := by
  unfold comboKeyLe at h1 h2 ⊢
  rcases h1 with h1 | ⟨e1, h1⟩
  · rcases h2 with h2 | ⟨e2, h2⟩
    · exact Or.inl (lt_trans h2 h1)
    · exact Or.inl (e2 ▸ h1)
  · rcases h2 with h2 | ⟨e2, h2⟩
    · exact Or.inl (by rw [e1]; exact h2)
    · refine Or.inr ⟨e1.trans e2, ?_⟩
      rcases h1 with h1 | ⟨f1, h1⟩
      · rcases h2 with h2 | ⟨f2, h2⟩
        · exact Or.inl (lt_trans h1 h2)
        · exact Or.inl (f2 ▸ h1)
      · rcases h2 with h2 | ⟨f2, h2⟩
        · exact Or.inl (f1 ▸ h2)
        · exact Or.inr ⟨f1.trans f2, le_trans h1 h2⟩

theorem comboKeyLeB_eq_true_iff (m : Point) (a b : PhysicalKey) :
    comboKeyLeB m a b = true ↔ comboKeyLe m a b := by
  unfold comboKeyLeB
  constructor
  · exact fun h => @of_decide_eq_true _ (Classical.propDecidable _) h
  · exact fun h => @decide_eq_true _ (Classical.propDecidable _) h

theorem comboKeyLeB_trans (m : Point) : ∀ a b c : PhysicalKey,
    comboKeyLeB m a b = true → comboKeyLeB m b c = true → comboKeyLeB m a c = true :=
  fun a b c h1 h2 =>
    (comboKeyLeB_eq_true_iff m a c).mpr
      (comboKeyLe_trans m a b c ((comboKeyLeB_eq_true_iff m a b).mp h1)
        ((comboKeyLeB_eq_true_iff m b c).mp h2))

theorem comboKeyLeB_total (m : Point) : ∀ a b : PhysicalKey,
    (comboKeyLeB m a b || comboKeyLeB m b a) = true := by
  intro a b
  rcases comboKeyLe_total m a b with h | h
  · rw [(comboKeyLeB_eq_true_iff m a b).mpr h]
    exact Bool.true_or _
  · rw [(comboKeyLeB_eq_true_iff m b a).mpr h]
    exact Bool.or_true _

/-! ### The concrete two-participant slide combo of C6 -/

/-- Two default-sized keys at (0, 0) and (10, 0). -/
noncomputable def slideKeys : List PhysicalKey :=
  [⟨0, 0, 59, 54, 0⟩, ⟨10, 0, 59, 54, 0⟩]

/-- A mid-aligned combo over both keys with the given slide. -/
noncomputable def slideCombo (sl : Option ℝ) : ComboSpec :=
  { key_positions := [0, 1], key := {}, slide := sl }

theorem slideKeys_centroid :
    combo_centroid [⟨0, 0, 59, 54, 0⟩, ⟨10, 0, 59, 54, 0⟩] = ⟨5, 0⟩ := by
  simp only [combo_centroid]
  ext <;> simp [PhysicalKey.pos] <;> norm_num

theorem slideKeys_le :
    comboKeyLe ⟨5, 0⟩ ⟨0, 0, 59, 54, 0⟩ ⟨10, 0, 59, 54, 0⟩ := by
  unfold comboKeyLe
  right
  constructor
  · have h0 : (⟨0, 0, 59, 54, 0⟩ : PhysicalKey).pos - ⟨5, 0⟩ = ⟨-5, 0⟩ := by
      ext <;> simp [PhysicalKey.pos] <;> norm_num
    have h1 : (⟨10, 0, 59, 54, 0⟩ : PhysicalKey).pos - ⟨5, 0⟩ = ⟨5, 0⟩ := by
      ext <;> simp [PhysicalKey.pos] <;> norm_num
    rw [h0, h1, point_abs_x, point_abs_x]
    norm_num
  · left
    show (0 : ℝ) < 10
    norm_num

/-- The stable sort leaves the already-sorted pair in place: with equal
distances from the centroid (5, 0) the x tie-break orders (0, 0) first. -/
theorem slideKeys_sorted :
    ([⟨0, 0, 59, 54, 0⟩, ⟨10, 0, 59, 54, 0⟩] : List PhysicalKey).mergeSort
        (comboKeyLeB (combo_centroid [⟨0, 0, 59, 54, 0⟩, ⟨10, 0, 59, 54, 0⟩])) =
      [⟨0, 0, 59, 54, 0⟩, ⟨10, 0, 59, 54, 0⟩] := by
  apply List.mergeSort_of_sorted
  rw [List.pairwise_cons]
  constructor
  · intro k hk
    rcases List.mem_singleton.mp hk with rfl
    rw [slideKeys_centroid]
    exact (comboKeyLeB_eq_true_iff _ _ _).mpr slideKeys_le
  · exact List.pairwise_singleton _ _

/-- C6 (amended as stated): for every combo with slide set, the stable sort
orders the participants farther-from-centroid first with ties broken by
ascending x then ascending y (the sorted list is a permutation of the
participants, pairwise ordered by that relation), the first two sorted
participants a and b give the box midpoint (1 - slide) / 2 * a + (1 +
slide) / 2 * b, and concretely for participants at (0, 0) and (10, 0):
without slide the mid-aligned box center is (5, 0), with slide 1 it is
(10, 0), with slide -1 it is (0, 0). -/
theorem C6_slide_interpolation :
    (∀ (p_keys : List PhysicalKey) (s : ℝ) (a b : PhysicalKey) (rest : List PhysicalKey),
        (p_keys.mergeSort (comboKeyLeB (combo_centroid p_keys))).Perm p_keys ∧
          List.Pairwise (comboKeyLe (combo_centroid p_keys))
            (p_keys.mergeSort (comboKeyLeB (combo_centroid p_keys))) ∧
          (p_keys.mergeSort (comboKeyLeB (combo_centroid p_keys)) = a :: b :: rest →
            (∀ k ∈ p_keys, comboKeyLe (combo_centroid p_keys) a k) ∧
              (∀ k ∈ rest, comboKeyLe (combo_centroid p_keys) b k) ∧
              comboKeyLe (combo_centroid p_keys) a b ∧
              combo_pmid p_keys (some s) =
                ((1 - s) / 2) • a.pos + ((1 + s) / 2) • b.pos)) ∧
      combo_anchor testCfg slideKeys ⟨0, 0⟩ (slideCombo none) = ⟨5, 0⟩ ∧
      combo_anchor testCfg slideKeys ⟨0, 0⟩ (slideCombo (some 1)) = ⟨10, 0⟩ ∧
      combo_anchor testCfg slideKeys ⟨0, 0⟩ (slideCombo (some (-1))) = ⟨0, 0⟩ := by
  constructor
  · intro p_keys s a b rest
    have hpw := List.sorted_mergeSort (comboKeyLeB_trans (combo_centroid p_keys))
      (comboKeyLeB_total (combo_centroid p_keys)) p_keys
    have hpw2 : List.Pairwise (comboKeyLe (combo_centroid p_keys))
        (p_keys.mergeSort (comboKeyLeB (combo_centroid p_keys))) :=
      hpw.imp (fun h => (comboKeyLeB_eq_true_iff _ _ _).mp h)
    have hperm := List.mergeSort_perm p_keys (comboKeyLeB (combo_centroid p_keys))
    refine ⟨hperm, hpw2, ?_⟩
    intro heq
    rw [heq] at hpw2 hperm
    obtain ⟨ha, hpw3⟩ := List.pairwise_cons.mp hpw2
    obtain ⟨hb, -⟩ := List.pairwise_cons.mp hpw3
    refine ⟨?_, hb, ha b (List.mem_cons_self _ _), ?_⟩
    · intro k hk
      have hk2 : k ∈ a :: b :: rest := hperm.mem_iff.mpr hk
      rcases List.mem_cons.mp hk2 with rfl | hk3
      · exact comboKeyLe_refl _ _
      · exact ha k hk3
    · simp only [combo_pmid, heq]
  · refine ⟨?_, ?_, ?_⟩
    · simp only [combo_anchor, slideCombo, combo_pkeys, slideKeys, combo_pmid,
        combo_centroid]
      ext <;> simp [PhysicalKey.pos] <;> norm_num
    · have hm : combo_pmid [⟨0, 0, 59, 54, 0⟩, ⟨10, 0, 59, 54, 0⟩] (some 1) =
          ⟨10, 0⟩ := by
        simp only [combo_pmid, slideKeys_sorted]
        ext <;> simp [PhysicalKey.pos] <;> norm_num
      simp only [combo_anchor, slideCombo, combo_pkeys, slideKeys]
      rw [show ([(0 : ℕ), 1].map
          (fun i => [(⟨0, 0, 59, 54, 0⟩ : PhysicalKey), ⟨10, 0, 59, 54, 0⟩].getD i default))
          = [⟨0, 0, 59, 54, 0⟩, ⟨10, 0, 59, 54, 0⟩] from rfl, hm]
      ext <;> simp
    · have hm : combo_pmid [⟨0, 0, 59, 54, 0⟩, ⟨10, 0, 59, 54, 0⟩] (some (-1)) =
          ⟨0, 0⟩ := by
        simp only [combo_pmid, slideKeys_sorted]
        ext <;> simp [PhysicalKey.pos] <;> norm_num
      simp only [combo_anchor, slideCombo, combo_pkeys, slideKeys]
      rw [show ([(0 : ℕ), 1].map
          (fun i => [(⟨0, 0, 59, 54, 0⟩ : PhysicalKey), ⟨10, 0, 59, 54, 0⟩].getD i default))
          = [⟨0, 0, 59, 54, 0⟩, ⟨10, 0, 59, 54, 0⟩] from rfl, hm]
      ext <;> simp

/-- C6 witness: for the concrete pair the sorted order is ((0,0), (10,0))
and slide 1 interpolates fully to the second key. -/
theorem C6_slide_interpolation_witness :
    combo_pmid [⟨0, 0, 59, 54, 0⟩, ⟨10, 0, 59, 54, 0⟩] (some 1) =
      (((1 : ℝ) - 1) / 2) • (⟨0, 0, 59, 54, 0⟩ : PhysicalKey).pos +
        (((1 : ℝ) + 1) / 2) • (⟨10, 0, 59, 54, 0⟩ : PhysicalKey).pos :=
  ((C6_slide_interpolation.1 [⟨0, 0, 59, 54, 0⟩, ⟨10, 0, 59, 54, 0⟩] 1
      ⟨0, 0, 59, 54, 0⟩ ⟨10, 0, 59, 54, 0⟩ []).2.2 slideKeys_sorted).2.2.2

/-! ### Atomicity of the layer-subset check (C9) -/

/-- C9: when the selected layer subset contains a name absent from the
keymap document, print_board fails on its assertion before the first write:
the output is the untouched empty sink together with the error. -/
theorem C9_layer_subset_atomic (cfg : DrawConfig) (km : KeymapData)
    (draw_layers : List String) (keys_only combos_only : Bool)
    (hne : draw_layers ≠ [])
    (hmiss : ∃ l ∈ draw_layers, l ∉ km.layers.map Prod.fst) :
    print_board cfg km draw_layers keys_only combos_only =
      ([], some "Some layer names selected for drawing are not in the keymap") := by
  have hall : ¬ draw_layers.all (fun l => (km.layers.map Prod.fst).contains l) = true := by
    simp only [List.all_eq_true]
    push_neg
    obtain ⟨l, hl, hnm⟩ := hmiss
    refine ⟨l, hl, ?_⟩
    simp only [List.contains, Bool.not_eq_true]
    rw [← Bool.not_eq_true, List.elem_iff]
    exact hnm
  simp only [print_board]
  rw [if_pos ⟨hne, hall⟩]

/-- A one-layer keymap document with no combos and no keys. -/
def km0 : KeymapData :=
  ⟨[("base", [])], [], []⟩

/-- C9 witness: requesting the missing layer name leaves the sink empty and
returns the error. -/
theorem C9_layer_subset_atomic_witness :
    print_board testCfg km0 ["bogus"] false false =
      ([], some "Some layer names selected for drawing are not in the keymap") :=
  C9_layer_subset_atomic testCfg km0 ["bogus"] false false (by simp)
    ⟨"bogus", List.mem_singleton.mpr rfl, by decide⟩

end KeymapSpec
